import Mathlib

/-!
Verification of the MiniLang compiler core (lexer, symbol table, IR generator,
optimizer, interpreter) against its natural-language specification.

The Python source is shallowly embedded:
* Python runtime values (`int`, `float`, `bool`, `str`, `list`, `None`, and the
  2-tuples of operand strings used by `builtin_substr`) become the inductive
  `Value`.  Python `float` is modelled by `ℚ`.  The host-level string
  operations the source leans on — `str`/`repr` of values, `%` string
  formatting, sequence repetition — are modelled on this domain
  (`floatStr`, `pyStr`, `pyRepr`, `pyStrMod`); decimal rounding is exact
  half-even rounding of the rational, which coincides with Python wherever
  the rational is a double's exact value, and the places where IEEE doubles
  would diverge from `ℚ` (non-integral exponents, values beyond double
  precision, lone surrogates from `%c`) are marked in comments.
* The dynamically typed fields of `ThreeAddressCode` (`op`, `arg1`, `arg2`,
  `result`) become `String`, `Operand`, `Operand`, `Option String`; in the
  source `result` is always a name string or `None`.
* Python dictionaries keyed by `instr.result` (which can be `None`) become
  maps over `Option String`.
* Exceptions become `Except`/`Option`.  Errors the interpreter raises itself
  (`RuntimeError`) are distinguished from host-level exceptions the source
  does not catch (`TypeError`, `IndexError`, ...), which are modelled by
  `RTErr.host`.
* Numeric-string parsing (`int(s)` / `float(s)`) is modelled for the grammar
  the pipeline can produce: an optional leading minus sign, digits, and at
  most one decimal point.  Python also accepts surrounding whitespace,
  exponents and `inf`/`nan`; no component of this repository produces such
  operand strings.
-/

namespace MiniCompiler

/-- Python runtime values as used by the optimizer constant tables and the
interpreter variable store.  `vnone` is Python `None`; `vpair` is the
`(start, end)` tuple of operand strings that `builtin_substr` carries. -/
inductive Value where
  | vint (n : ℤ)
  | vfloat (q : ℚ)
  | vbool (b : Bool)
  | vstr (s : String)
  | vlist (xs : List Value)
  | vnone
  | vpair (a b : String)
  deriving Repr

mutual

def Value.decEq : (a b : Value) → Decidable (a = b)
  | .vint a, .vint b =>
    if h : a = b then .isTrue (by rw [h]) else .isFalse (by simp [h])
  | .vfloat a, .vfloat b =>
    if h : a = b then .isTrue (by rw [h]) else .isFalse (by simp [h])
  | .vbool a, .vbool b =>
    if h : a = b then .isTrue (by rw [h]) else .isFalse (by simp [h])
  | .vstr a, .vstr b =>
    if h : a = b then .isTrue (by rw [h]) else .isFalse (by simp [h])
  | .vlist a, .vlist b =>
    match Value.decEqList a b with
    | .isTrue h => .isTrue (by rw [h])
    | .isFalse h => .isFalse (by simp [h])
  | .vnone, .vnone => .isTrue rfl
  | .vpair a b, .vpair c d =>
    if h : a = c ∧ b = d then .isTrue (by rw [h.1, h.2])
    else .isFalse (by simp; intro h1 h2; exact h ⟨h1, h2⟩)
  | .vint _, .vfloat _ => .isFalse (by simp)
  | .vint _, .vbool _ => .isFalse (by simp)
  | .vint _, .vstr _ => .isFalse (by simp)
  | .vint _, .vlist _ => .isFalse (by simp)
  | .vint _, .vnone => .isFalse (by simp)
  | .vint _, .vpair _ _ => .isFalse (by simp)
  | .vfloat _, .vint _ => .isFalse (by simp)
  | .vfloat _, .vbool _ => .isFalse (by simp)
  | .vfloat _, .vstr _ => .isFalse (by simp)
  | .vfloat _, .vlist _ => .isFalse (by simp)
  | .vfloat _, .vnone => .isFalse (by simp)
  | .vfloat _, .vpair _ _ => .isFalse (by simp)
  | .vbool _, .vint _ => .isFalse (by simp)
  | .vbool _, .vfloat _ => .isFalse (by simp)
  | .vbool _, .vstr _ => .isFalse (by simp)
  | .vbool _, .vlist _ => .isFalse (by simp)
  | .vbool _, .vnone => .isFalse (by simp)
  | .vbool _, .vpair _ _ => .isFalse (by simp)
  | .vstr _, .vint _ => .isFalse (by simp)
  | .vstr _, .vfloat _ => .isFalse (by simp)
  | .vstr _, .vbool _ => .isFalse (by simp)
  | .vstr _, .vlist _ => .isFalse (by simp)
  | .vstr _, .vnone => .isFalse (by simp)
  | .vstr _, .vpair _ _ => .isFalse (by simp)
  | .vlist _, .vint _ => .isFalse (by simp)
  | .vlist _, .vfloat _ => .isFalse (by simp)
  | .vlist _, .vbool _ => .isFalse (by simp)
  | .vlist _, .vstr _ => .isFalse (by simp)
  | .vlist _, .vnone => .isFalse (by simp)
  | .vlist _, .vpair _ _ => .isFalse (by simp)
  | .vnone, .vint _ => .isFalse (by simp)
  | .vnone, .vfloat _ => .isFalse (by simp)
  | .vnone, .vbool _ => .isFalse (by simp)
  | .vnone, .vstr _ => .isFalse (by simp)
  | .vnone, .vlist _ => .isFalse (by simp)
  | .vnone, .vpair _ _ => .isFalse (by simp)
  | .vpair _ _, .vint _ => .isFalse (by simp)
  | .vpair _ _, .vfloat _ => .isFalse (by simp)
  | .vpair _ _, .vbool _ => .isFalse (by simp)
  | .vpair _ _, .vstr _ => .isFalse (by simp)
  | .vpair _ _, .vlist _ => .isFalse (by simp)
  | .vpair _ _, .vnone => .isFalse (by simp)

def Value.decEqList : (as bs : List Value) → Decidable (as = bs)
  | [], [] => .isTrue rfl
  | a :: as, b :: bs =>
    match Value.decEq a b, Value.decEqList as bs with
    | .isTrue h1, .isTrue h2 => .isTrue (by rw [h1, h2])
    | .isFalse h1, _ => .isFalse (by simp [h1])
    | _, .isFalse h2 => .isFalse (by simp [h2])
  | [], _ :: _ => .isFalse (by simp)
  | _ :: _, [] => .isFalse (by simp)

end

instance : DecidableEq Value := Value.decEq

/-- The dynamically typed operand slots of a `ThreeAddressCode` instruction:
a name or literal string, a Python value inserted by the optimizer
(`int`/`float`/`bool`), `None`, or the substr pair of operand strings. -/
inductive Operand where
  | onone
  | ostr (s : String)
  | oint (n : ℤ)
  | ofloat (q : ℚ)
  | obool (b : Bool)
  | opair (a b : String)
  deriving DecidableEq, Repr

/-- `ThreeAddressCode` from ir_generator.py: `{op, arg1, arg2, result}`.
In the source `result` is always a string or `None`. -/
structure ThreeAddressCode where
  op : String
  arg1 : Operand := .onone
  arg2 : Operand := .onone
  result : Option String := none
  deriving DecidableEq, Repr

/-- Python truthiness of an operand slot (used where the source tests
`if instr.arg1 ...` / `if instr.result ...`). -/
def operandTruthy : Operand → Bool
  | .onone => false
  | .ostr s => s ≠ ""
  | .oint n => n ≠ 0
  | .ofloat q => q ≠ 0
  | .obool b => b
  | .opair _ _ => true

/-- Python truthiness of an `Option String` slot (`None` and `""` are falsy). -/
def strOptTruthy : Option String → Bool
  | none => false
  | some s => s ≠ ""

/-- Python truthiness of a runtime value. -/
def pyTruthy : Value → Bool
  | .vint n => n ≠ 0
  | .vfloat q => q ≠ 0
  | .vbool b => b
  | .vstr s => s ≠ ""
  | .vlist xs => ¬ xs.isEmpty
  | .vnone => false
  | .vpair _ _ => true

/-- `str.startswith(p)` over the character list (kernel-reducible). -/
def pyStartsWith (s p : String) : Bool := p.toList.isPrefixOf s.toList

/-- `str.endswith(p)` over the character list. -/
def pyEndsWith (s p : String) : Bool :=
  p.toList.reverse.isPrefixOf s.toList.reverse

/-- Python `s[1:]`. -/
def strDropFirst (s : String) : String := ⟨s.toList.drop 1⟩

/-- Python `s[1:-1]`. -/
def strDropFirstLast (s : String) : String := ⟨(s.toList.drop 1).dropLast⟩

/-- `str.lower()` for ASCII (the only characters identifiers contain). -/
def charToLower (c : Char) : Char :=
  if 65 ≤ c.toNat ∧ c.toNat ≤ 90 then Char.ofNat (c.toNat + 32) else c

def strToLower (s : String) : String := ⟨s.toList.map charToLower⟩

/-- The decimal digit character for `n % 10`. -/
def digitChar (n : ℕ) : Char :=
  if n % 10 = 0 then '0' else if n % 10 = 1 then '1' else if n % 10 = 2 then '2'
  else if n % 10 = 3 then '3' else if n % 10 = 4 then '4'
  else if n % 10 = 5 then '5' else if n % 10 = 6 then '6'
  else if n % 10 = 7 then '7' else if n % 10 = 8 then '8' else '9'

/-- Decimal digits of a natural number, with explicit fuel so that the
definition is structural and reduces inside the kernel.  The fuel is always
called with at least `n + 1`, which suffices since the argument shrinks by a
factor of 10 each step. -/
def natToChars (fuel n : ℕ) : List Char :=
  match fuel with
  | 0 => []
  | fuel' + 1 =>
    if n < 10 then [digitChar n]
    else natToChars fuel' (n / 10) ++ [digitChar (n % 10)]

/-- Decimal rendering of a natural number, as Python `str(n)` produces it. -/
def natStr (n : ℕ) : String := ⟨natToChars (n + 1) n⟩

/-- Decimal rendering of an integer, as Python `str(n)` produces it. -/
def intStr (n : ℤ) : String :=
  if n < 0 then "-" ++ natStr n.natAbs else natStr n.natAbs

/-- The digit characters `'0'..'9'`. -/
def isDigitChar (c : Char) : Bool := 48 ≤ c.toNat ∧ c.toNat ≤ 57

/-- Numeric value of a digit list (inverse of `natToChars`). -/
def charsVal (cs : List Char) : ℕ :=
  cs.foldl (fun a c => 10 * a + (c.toNat - 48)) 0

/-! ### Decimal rendering and percent formatting (host `str`/`repr`/`%`)

The source leans on Python's own `str`, `repr`, string `%`-formatting and
sequence repetition.  These host operations are modelled here on the
pipeline's value domain.  Within the `ℚ`-for-float decision, decimal
rounding is exact half-even rounding of the rational; Python rounds the
decimal value of the nearest binary double, so outputs agree exactly
whenever the rational is the value of a double (all dyadic rationals up to
double precision) and differ only where the `ℚ` model has already replaced
the double itself. -/

/-- Round `x / d` (with `d ≠ 0`) to the nearest integer, ties to even:
the rounding Python applies when formatting decimals. -/
def rheNat (x d : ℕ) : ℕ :=
  let q := x / d
  let r := x % d
  if 2 * r < d then q
  else if d < 2 * r then q + 1
  else if q % 2 = 0 then q else q + 1

/-- Number of decimal digits of `n` (`1` for `0`). -/
def numDigits (n : ℕ) : ℕ := (natToChars (n + 1) n).length

/-- Floor of `log10 (nn / dd)` for positive `nn`, `dd`. -/
def decExp (nn dd : ℕ) : ℤ :=
  let k0 : ℤ := (numDigits nn : ℤ) - (numDigits dd : ℤ)
  let ge : Bool :=
    if 0 ≤ k0 then decide (dd * 10 ^ k0.toNat ≤ nn)
    else decide (dd ≤ nn * 10 ^ (-k0).toNat)
  if ge then k0 else k0 - 1

/-- `nn / dd` scaled by `10 ^ k` and rounded half-even to an integer. -/
def scaleRound (nn dd : ℕ) (k : ℤ) : ℕ :=
  if 0 ≤ k then rheNat (nn * 10 ^ k.toNat) dd
  else rheNat nn (dd * 10 ^ (-k).toNat)

/-- Left-pad a digit list with zeros to length `k`. -/
def padZerosTo (ds : List Char) (k : ℕ) : List Char :=
  if ds.length < k then List.replicate (k - ds.length) '0' ++ ds else ds

/-- Drop trailing zero digits. -/
def stripZeros (ds : List Char) : List Char :=
  (ds.reverse.dropWhile (fun c => c = '0')).reverse

/-- `nn / dd` (`nn, dd ≥ 1`) rounded half-even to `s ≥ 1` significant
digits: the digit list (length `s`) and the exponent `e` of the leading
digit (`10 ^ e ≤ value < 10 ^ (e + 1)` after rounding). -/
def sigRound (nn dd s : ℕ) : List Char × ℤ :=
  let e := decExp nn dd
  let R := scaleRound nn dd ((s : ℤ) - 1 - e)
  let ds := natToChars (R + 1) R
  if ds.length = s + 1 then (natToChars R (R / 10), e + 1)
  else (ds ++ List.replicate (s - ds.length) '0', e)

/-- Fixed-point rendering of the magnitude `nn / dd` with exactly `k`
digits after the point (no point for `k = 0`), rounded half-even. -/
def fixedChars (nn dd k : ℕ) : List Char :=
  let R := rheNat (nn * 10 ^ k) dd
  let ds := padZerosTo (natToChars (R + 1) R) (k + 1)
  if k = 0 then ds
  else ds.take (ds.length - k) ++ '.' :: ds.drop (ds.length - k)

/-- Exponent suffix as `repr`/`%e`/`%g` print it: a sign and at least two
digits. -/
def expChars (e : ℤ) : List Char :=
  let ds := padZerosTo (natToChars (e.natAbs + 1) e.natAbs) 2
  (if e < 0 then '-' else '+') :: ds

/-- Multiplicity of `p` in `n` and the remaining cofactor. -/
def stripFactor : (fuel n p : ℕ) → ℕ × ℕ
  | 0, n, _ => (0, n)
  | fuel + 1, n, p =>
    if 2 ≤ p ∧ 0 < n ∧ n % p = 0 then
      let (a, r) := stripFactor fuel (n / p) p
      (a + 1, r)
    else (0, n)

/-- Python `str`/`repr` of a float, transplanted to the rational model:
positional notation for decimal exponents in `[-4, 16)`, scientific
otherwise, shortest digits.  A rational whose decimal expansion
terminates within 17 significant digits (denominator `2^a·5^b`) renders
exactly as Python renders a double of that value; any other rational is
no double's value — it only arises where `ℚ` has already replaced the
double — and is rounded half-even to 17 significant digits, the longest
digit string `repr` of a double produces. -/
def floatStr (q : ℚ) : String :=
  if q = 0 then "0.0"
  else
    let nn := q.num.natAbs
    let dd := q.den
    let (a2, r2) := stripFactor (dd + 1) dd 2
    let (a5, r5) := stripFactor (r2 + 1) r2 5
    let exact :=
      if r5 = 1 then
        let k := max a2 a5
        let R := nn * 10 ^ k / dd
        stripZeros (natToChars (R + 1) R)
      else []
    let (ds, e) :=
      if exact ≠ [] ∧ exact.length ≤ 17 then (exact, decExp nn dd)
      else
        let p := sigRound nn dd 17
        (stripZeros p.1, p.2)
    let body :=
      if e < -4 ∨ 16 ≤ e then
        ds.take 1 ++
          (if 1 < ds.length then '.' :: ds.drop 1 else []) ++
          'e' :: expChars e
      else if 0 ≤ e then
        let ip := e.toNat + 1
        let dsp := ds ++ List.replicate (ip - ds.length) '0'
        let frac := dsp.drop ip
        dsp.take ip ++ '.' :: (if frac = [] then ['0'] else frac)
      else
        '0' :: '.' :: (List.replicate (-(e + 1)).toNat '0' ++ ds)
    (if q.num < 0 then "-" else "") ++ ⟨body⟩

/-- A single quote character (for Python `repr` of strings). -/
def squote : String := String.singleton (Char.ofNat 39)

mutual

/-- Python `repr`, as `str(list)` applies it to elements.  String escaping
inside `repr` is not modelled (no claim prints a string containing
quotes). -/
def pyRepr : Value → String
  | .vint n => intStr n
  | .vfloat q => floatStr q
  | .vbool b => cond b "True" "False"
  | .vstr s => squote ++ s ++ squote
  | .vlist xs => "[" ++ pyReprList xs ++ "]"
  | .vnone => "None"
  | .vpair a b =>
    "(" ++ squote ++ a ++ squote ++ ", " ++ squote ++ b ++ squote ++ ")"

def pyReprList : List Value → String
  | [] => ""
  | [v] => pyRepr v
  | v :: rest => pyRepr v ++ ", " ++ pyReprList rest

end

/-- Python `str(value)`, used by the `print` instruction. -/
def pyStr : Value → String
  | .vstr s => s
  | v => pyRepr v

/-- A base-`b` digit character in the requested case (for `%x`/`%X`/`%o`). -/
def baseDigitChar (up : Bool) (n : ℕ) : Char :=
  if n = 10 then cond up 'A' 'a' else if n = 11 then cond up 'B' 'b'
  else if n = 12 then cond up 'C' 'c' else if n = 13 then cond up 'D' 'd'
  else if n = 14 then cond up 'E' 'e' else if n = 15 then cond up 'F' 'f'
  else digitChar n

/-- Digits of `n` in base `b ≥ 2`, with fuel (`n + 1` suffices). -/
def natToBaseChars (up : Bool) (b : ℕ) : (fuel n : ℕ) → List Char
  | 0, _ => []
  | fuel + 1, n =>
    if n < b then [baseDigitChar up n]
    else natToBaseChars up b fuel (n / b) ++ [baseDigitChar up (n % b)]

/-- `n` copies of a list, concatenated (Python sequence repetition;
`n = 0` for non-positive Python counts). -/
def repList {α : Type} : ℕ → List α → List α
  | 0, _ => []
  | n + 1, xs => xs ++ repList n xs

def isFlagChar (c : Char) : Bool :=
  c = '-' || c = '+' || c = ' ' || c = '#' || c = '0'

/-- One parsed `%` conversion specification of Python percent formatting:
flags, minimum width, optional precision, the conversion character, the
remaining format characters and the remaining (not yet consumed)
arguments. -/
structure FmtSpec where
  minus : Bool
  plus : Bool
  space : Bool
  hash : Bool
  zero : Bool
  width : ℕ
  prec : Option ℕ
  conv : Char
  rest : List Char
  args : List Value

/-- Parse one `%` specification: `%[(key)][flags][width][.prec][hlL]conv`.
`none` is any raised exception: a mapping key with a non-dict argument, a
`*` width/precision outside a tuple argument or naming a non-int, or a
format string that ends inside the specification. -/
def parseFmtSpec (cs : List Char) (isTup : Bool) (args : List Value) :
    Option FmtSpec :=
  match cs with
  | '(' :: _ => none
  | _ =>
    let fl := cs.takeWhile isFlagChar
    let r1 := cs.dropWhile isFlagChar
    let wres : Option (Bool × ℕ × List Char × List Value) :=
      match r1 with
      | '*' :: r2 =>
        if isTup then
          match args with
          | .vint n :: rest =>
            some (if n < 0 then (true, n.natAbs, r2, rest)
                  else (false, n.toNat, r2, rest))
          | .vbool b :: rest => some (false, cond b 1 0, r2, rest)
          | _ => none
        else none
      | _ => some (false, charsVal (r1.takeWhile isDigitChar),
          r1.dropWhile isDigitChar, args)
    match wres with
    | none => none
    | some (m2, width, r2, args1) =>
      let pres : Option (Option ℕ × List Char × List Value) :=
        match r2 with
        | '.' :: r3 =>
          match r3 with
          | '*' :: r4 =>
            if isTup then
              match args1 with
              | .vint n :: rest =>
                some (if n < 0 then none else some n.toNat, r4, rest)
              | .vbool b :: rest => some (some (cond b 1 0), r4, rest)
              | _ => none
            else none
          | _ => some (some (charsVal (r3.takeWhile isDigitChar)),
              r3.dropWhile isDigitChar, args1)
        | _ => some (none, r2, args1)
      match pres with
      | none => none
      | some (prec, r4, args2) =>
        let r5 := match r4 with
          | 'h' :: r => r
          | 'l' :: r => r
          | 'L' :: r => r
          | other => other
        match r5 with
        | [] => none
        | conv :: rest =>
          some ⟨fl.contains '-' || m2, fl.contains '+', fl.contains ' ',
            fl.contains '#', fl.contains '0', width, prec, conv,
            rest, args2⟩

/-- Pad a converted body to the field width: left-justified under `-`,
zero-filled after the prefix (sign and `0x`/`0o`) under `0`, else
space-padded on the left. -/
def padFmt (pfx body : List Char) (width : ℕ) (minus zero : Bool) :
    List Char :=
  let n := pfx.length + body.length
  if width ≤ n then pfx ++ body
  else if minus then pfx ++ body ++ List.replicate (width - n) ' '
  else if zero then pfx ++ List.replicate (width - n) '0' ++ body
  else List.replicate (width - n) ' ' ++ (pfx ++ body)

/-- Sign prefix of a numeric conversion: `-`, else `+` under the `+`
flag, else a space under the space flag. -/
def signChars (neg plus space : Bool) : List Char :=
  if neg then ['-'] else if plus then ['+'] else if space then [' '] else []

/-- The argument as `%d`/`%i`/`%u` accept it: a real number (floats
truncate toward zero). -/
def fmtAsInt : Value → Option ℤ
  | .vint n => some n
  | .vbool b => some (cond b 1 0)
  | .vfloat q => some (Int.tdiv q.num q.den)
  | _ => none

/-- The argument as `%x`/`%X`/`%o` accept it: an integer (no floats). -/
def fmtAsIntStrict : Value → Option ℤ
  | .vint n => some n
  | .vbool b => some (cond b 1 0)
  | _ => none

/-- The argument as the float conversions accept it. -/
def fmtAsQ : Value → Option ℚ
  | .vint n => some (n : ℚ)
  | .vbool b => some (cond b 1 0 : ℕ)
  | .vfloat q => some q
  | _ => none

/-- `%f` body of the magnitude: `p` decimals; `#` keeps the point at
`p = 0`. -/
def fmtFixed (q : ℚ) (p : ℕ) (hash : Bool) : List Char :=
  let ds := fixedChars q.num.natAbs q.den p
  if p = 0 ∧ hash then ds ++ ['.'] else ds

/-- `%e` body of the magnitude: one leading digit, `p` decimals, and the
signed two-digit exponent. -/
def fmtSci (q : ℚ) (p : ℕ) (hash : Bool) (eCh : Char) : List Char :=
  let nn := q.num.natAbs
  let de :=
    if nn = 0 then (List.replicate (p + 1) '0', (0 : ℤ))
    else sigRound nn q.den (p + 1)
  de.1.take 1 ++
    (if p = 0 then (if hash then ['.'] else [])
     else '.' :: de.1.drop 1) ++
    eCh :: expChars de.2

/-- `%g` body: `p` significant digits (`p = 0` counts as `1`), scientific
when the rounded exponent leaves `[-4, p)`, trailing zeros stripped
unless `#`. -/
def fmtGen (q : ℚ) (p0 : ℕ) (hash : Bool) (eCh : Char) : List Char :=
  let p := max p0 1
  let nn := q.num.natAbs
  if nn = 0 then
    if hash then '0' :: '.' :: List.replicate (p - 1) '0' else ['0']
  else
    let de := sigRound nn q.den p
    let ds := de.1
    let e := de.2
    if e < -4 ∨ (p : ℤ) ≤ e then
      let frac := if hash then ds.drop 1 else stripZeros (ds.drop 1)
      ds.take 1 ++ (if frac = [] ∧ ¬ hash then [] else '.' :: frac) ++
        eCh :: expChars e
    else if 0 ≤ e then
      let ip := e.toNat + 1
      let frac0 := ds.drop ip
      let frac := if hash then frac0 else stripZeros frac0
      ds.take ip ++ (if frac = [] ∧ ¬ hash then [] else '.' :: frac)
    else
      let frac0 := List.replicate (-(e + 1)).toNat '0' ++ ds
      let frac := if hash then frac0 else stripZeros frac0
      '0' :: (if frac = [] ∧ ¬ hash then [] else '.' :: frac)

/-- Apply one parsed conversion to its fetched argument.  `none` is the
raised `TypeError`/`OverflowError`/`ValueError` (wrong argument type, a
`%c` code point out of range, an unknown conversion character).  A `%c`
code point in the surrogate range — a lone surrogate Python would keep in
its string — has no Lean `Char`; `Char.ofNat` maps it to `'\x00'`, a
declared boundary of the model. -/
def convBody (sp : FmtSpec) (v : Value) : Option (List Char) :=
  let c := sp.conv
  if c = 'd' ∨ c = 'i' ∨ c = 'u' then
    match fmtAsInt v with
    | some n =>
      some (padFmt (signChars (decide (n < 0)) sp.plus sp.space)
        (padZerosTo (natToChars (n.natAbs + 1) n.natAbs) (sp.prec.getD 0))
        sp.width sp.minus sp.zero)
    | none => none
  else if c = 'x' ∨ c = 'X' ∨ c = 'o' then
    match fmtAsIntStrict v with
    | some n =>
      let up := c = 'X'
      let base := if c = 'o' then 8 else 16
      let pfx : List Char :=
        if sp.hash then
          if c = 'o' then ['0', 'o'] else if up then ['0', 'X']
          else ['0', 'x']
        else []
      some (padFmt (signChars (decide (n < 0)) sp.plus sp.space ++ pfx)
        (padZerosTo (natToBaseChars up base (n.natAbs + 1) n.natAbs)
          (sp.prec.getD 0))
        sp.width sp.minus sp.zero)
    | none => none
  else if c = 'c' then
    match v with
    | .vint n =>
      if 0 ≤ n ∧ n < 1114112 then
        some (padFmt [] [Char.ofNat n.toNat] sp.width sp.minus false)
      else none
    | .vbool b =>
      some (padFmt [] [Char.ofNat (cond b 1 0)] sp.width sp.minus false)
    | .vstr s =>
      match s.toList with
      | [ch] => some (padFmt [] [ch] sp.width sp.minus false)
      | _ => none
    | _ => none
  else if c = 's' ∨ c = 'r' ∨ c = 'a' then
    let str := if c = 's' then pyStr v else pyRepr v
    let body := match sp.prec with
      | some p => str.toList.take p
      | none => str.toList
    some (padFmt [] body sp.width sp.minus false)
  else if c = 'f' ∨ c = 'F' then
    match fmtAsQ v with
    | some q =>
      some (padFmt (signChars (decide (q < 0)) sp.plus sp.space)
        (fmtFixed q (sp.prec.getD 6) sp.hash) sp.width sp.minus sp.zero)
    | none => none
  else if c = 'e' ∨ c = 'E' then
    match fmtAsQ v with
    | some q =>
      some (padFmt (signChars (decide (q < 0)) sp.plus sp.space)
        (fmtSci q (sp.prec.getD 6) sp.hash (if c = 'E' then 'E' else 'e'))
        sp.width sp.minus sp.zero)
    | none => none
  else if c = 'g' ∨ c = 'G' then
    match fmtAsQ v with
    | some q =>
      some (padFmt (signChars (decide (q < 0)) sp.plus sp.space)
        (fmtGen q (sp.prec.getD 6) sp.hash (if c = 'G' then 'E' else 'e'))
        sp.width sp.minus sp.zero)
    | none => none
  else none

/-- The formatting walk: literal characters are copied, `%%` emits `%`
and consumes nothing, every other `%` specification fetches one argument
(after the `*` fetches of its width/precision) and converts it.  At the
end every argument must have been consumed (`not all arguments
converted`), and a missing argument (`not enough arguments`) or failed
conversion raises — all exceptions are `none`. -/
def fmtWalk (isTup : Bool) : (fuel : ℕ) → List Char → List Value →
    List Char → Option (List Char)
  | 0, _, _, _ => none
  | _ + 1, [], args, acc => if args.isEmpty then some acc else none
  | fuel + 1, '%' :: '%' :: cs, args, acc =>
    fmtWalk isTup fuel cs args (acc ++ ['%'])
  | fuel + 1, '%' :: cs, args, acc =>
    match parseFmtSpec cs isTup args with
    | none => none
    | some sp =>
      match sp.args with
      | [] => none
      | v :: args2 =>
        match convBody sp v with
        | none => none
        | some out => fmtWalk isTup fuel sp.rest args2 (acc ++ out)
  | fuel + 1, ch :: cs, args, acc => fmtWalk isTup fuel cs args (acc ++ [ch])

/-- Python `str.__mod__` (percent formatting) on this pipeline's value
domain: a `vpair` right operand is a 2-tuple of strings, any other value
is the single argument.  `none` is any raised exception (caught by the
folding `except`, uncaught in the interpreter). -/
def pyStrMod (fmt : String) (arg : Value) : Option String :=
  let p : Bool × List Value :=
    match arg with
    | .vpair a b => (true, [Value.vstr a, Value.vstr b])
    | v => (false, [v])
  (fmtWalk p.1 (fmt.length + 1) fmt.toList p.2 []).map
    (fun cs => (⟨cs⟩ : String))

/-! ### Optimizer (optimizer.py) -/

/-- `Optimizer.is_constant`: literal values are constants; a string is a
constant when it is surrounded by double quotes or parses as a number. -/
def numericStr (s : String) : Bool :=
  let core := if pyStartsWith s "-" then strDropFirst s else s
  core.toList.any isDigitChar &&
    core.toList.all (fun c => isDigitChar c || c = '.') &&
    core.toList.count '.' ≤ 1 &&
    (core ≠ "")

def quoted (s : String) : Bool := pyStartsWith s "\"" && pyEndsWith s "\""

def is_constant : Operand → Bool
  | .oint _ => true
  | .ofloat _ => true
  | .obool _ => true
  | .ostr s => quoted s || numericStr s
  | .onone => false
  | .opair _ _ => false

/-- Parse a digit string (optionally signed) to an integer, modelling
Python `int(s)` on the operand strings this pipeline produces. -/
def parseIntPy (s : String) : Option ℤ :=
  let (neg, core) :=
    if pyStartsWith s "-" then (true, (strDropFirst s).toList)
    else (false, s.toList)
  if core ≠ [] ∧ core.all isDigitChar then
    let v : ℕ := charsVal core
    some (if neg then -(v : ℤ) else (v : ℤ))
  else none

/-- Parse a decimal string containing a point to a rational, modelling
Python `float(s)` on the operand strings this pipeline produces. -/
def parseFloatPy (s : String) : Option ℚ :=
  let (neg, core) :=
    if pyStartsWith s "-" then (true, (strDropFirst s).toList)
    else (false, s.toList)
  let intPart := core.takeWhile (fun c => c ≠ '.')
  let rest := core.dropWhile (fun c => c ≠ '.')
  let fracPart := rest.drop 1
  if (intPart ++ fracPart).all isDigitChar ∧ (intPart ++ fracPart) ≠ [] ∧
      fracPart.count '.' = 0 then
    let v : ℚ := (charsVal intPart : ℚ) +
      (charsVal fracPart : ℚ) / ((10 : ℚ) ^ fracPart.length)
    some (if neg then -v else v)
  else none

/-- `Optimizer.get_constant_value`; the `return None` paths of the source are
`Value.vnone` (Python `None`). -/
def get_constant_value : Operand → Value
  | .oint n => .vint n
  | .ofloat q => .vfloat q
  | .obool b => .vbool b
  | .ostr s =>
    if quoted s then .vstr (strDropFirstLast s)
    else if s.toList.contains '.' then
      match parseFloatPy s with
      | some q => .vfloat q
      | none => .vnone
    else
      match parseIntPy s with
      | some n => .vint n
      | none => .vnone
  | .onone => .vnone
  | .opair _ _ => .vnone

/-- Numeric view of a value for Python arithmetic: `bool` counts as an `int`
(`isinstance(True, int)` holds), carrying whether the value is a float. -/
def asNum : Value → Option (Bool × ℚ)
  | .vint n => some (false, (n : ℚ))
  | .vbool b => some (false, if b then 1 else 0)
  | .vfloat q => some (true, q)
  | _ => none

/-- Python `==` (never raises): numbers compare across `int`/`float`/`bool`,
other values compare within their type, mismatched types are unequal. -/
def pyEq (l r : Value) : Bool :=
  match asNum l, asNum r with
  | some (_, a), some (_, b) => a == b
  | _, _ =>
    match l, r with
    | .vstr a, .vstr b => a == b
    | .vnone, .vnone => true
    | .vpair a b, .vpair c d => a == c && b == d
    | .vlist a, .vlist b => decide (a = b)
    | _, _ => false

/-- The value is Python-`== 0`: `0`, `0.0` or `False`. -/
def isZeroValue (v : Value) : Bool := pyEq v (.vint 0)

/-- Python ordering comparison on two values; `none` models a `TypeError`.
List ordering (lexicographic in Python) is not modelled: the analyzed
language's semantic phase rejects relational operators on arrays, and no
claim exercises it. -/
def pyCmp (l r : Value) : Option Ordering :=
  match asNum l, asNum r with
  | some (_, a), some (_, b) => some (compare a b)
  | _, _ =>
    match l, r with
    | .vstr a, .vstr b => some (compare a b)
    | _, _ => none

/-- `Optimizer.evaluate_operation` under the `try`/`except` of constant
folding: `none` is any raised exception (`ZeroDivisionError`, `TypeError`,
unknown operator).  Python `//` and `%` on integers are floor division and
floor modulus (`Int.fdiv` / `Int.fmod`); `*` with a string or list operand
and an int is sequence repetition; `%` with a string left operand is
percent formatting (`pyStrMod`), which can *succeed* — `"%d" % 0` folds to
`"0"` — so a zero right operand aborts the fold only for numeric left
operands.  An `int ** negative` produces a float; a non-integral float
exponent would produce an irrational result, which the rational model maps
to `none` (never reached by the claims). -/
def evaluate_operation (op : String) (l r : Value) : Option Value :=
  let arith (fi : ℤ → ℤ → Option ℤ) (ff : ℚ → ℚ → Option ℚ) : Option Value :=
    match l, r with
    | .vstr _, _ => none
    | _, .vstr _ => none
    | _, _ =>
      match asNum l, asNum r with
      | some (fl, a), some (fr, b) =>
        if fl || fr then (ff a b).map .vfloat
        else
          match (fi a.num b.num) with
          | some v => some (.vint v)
          | none => none
      | _, _ => none
  if op = "+" then
    match l, r with
    | .vstr a, .vstr b => some (.vstr (a ++ b))
    | .vlist a, .vlist b => some (.vlist (a ++ b))
    | _, _ => arith (fun a b => some (a + b)) (fun a b => some (a + b))
  else if op = "-" then arith (fun a b => some (a - b)) (fun a b => some (a - b))
  else if op = "*" then
    match l, r with
    | .vstr s, .vint n => some (.vstr ⟨repList n.toNat s.toList⟩)
    | .vstr s, .vbool b => some (.vstr ⟨repList (cond b 1 0) s.toList⟩)
    | .vint n, .vstr s => some (.vstr ⟨repList n.toNat s.toList⟩)
    | .vbool b, .vstr s => some (.vstr ⟨repList (cond b 1 0) s.toList⟩)
    | .vlist xs, .vint n => some (.vlist (repList n.toNat xs))
    | .vlist xs, .vbool b => some (.vlist (repList (cond b 1 0) xs))
    | .vint n, .vlist xs => some (.vlist (repList n.toNat xs))
    | .vbool b, .vlist xs => some (.vlist (repList (cond b 1 0) xs))
    | _, _ => arith (fun a b => some (a * b)) (fun a b => some (a * b))
  else if op = "/" then
    match asNum l, asNum r with
    | some (fl, a), some (fr, b) =>
      if b = 0 then none
      else if fl || fr then some (.vfloat (a / b))
      else some (.vint (Int.fdiv a.num b.num))
    | _, _ => none
  else if op = "%" then
    match l with
    | .vstr fmt => (pyStrMod fmt r).map Value.vstr
    | _ =>
      match asNum l, asNum r with
      | some (fl, a), some (fr, b) =>
        if b = 0 then none
        else if fl || fr then some (.vfloat (a - b * ((a / b).floor : ℚ)))
        else some (.vint (Int.fmod a.num b.num))
      | _, _ => none
  else if op = "**" then
    match asNum l, asNum r with
    | some (fl, a), some (fr, b) =>
      if fl || fr then
        if b.den = 1 then
          if a = 0 ∧ b < 0 then none else some (.vfloat (a ^ b.num))
        else none  -- irrational result, outside the rational model
      else if 0 ≤ b.num then some (.vint (a.num ^ b.num.toNat))
      else if a.num = 0 then none
      else some (.vfloat ((a : ℚ) ^ b.num))
    | _, _ => none
  else if op = "<" then (pyCmp l r).map (fun o => .vbool (o = .lt))
  else if op = ">" then (pyCmp l r).map (fun o => .vbool (o = .gt))
  else if op = "<=" then (pyCmp l r).map (fun o => .vbool (o ≠ .gt))
  else if op = ">=" then (pyCmp l r).map (fun o => .vbool (o ≠ .lt))
  else if op = "==" then some (.vbool (pyEq l r))
  else if op = "!=" then some (.vbool (¬ pyEq l r))
  else none  -- `raise ValueError`, caught by the folding `except`

/-- Constant table of the folding pass.  Python keys this dictionary by
`instr.result`, which is a string or `None`, hence `Option String` keys.
A stored `Value.vnone` is a stored Python `None` (distinct from an absent
key for membership tests). -/
abbrev ConstMap : Type := List (Option String × Value)

def ConstMap.empty : ConstMap := []

def ConstMap.erase (m : ConstMap) (k : Option String) : ConstMap :=
  m.filter (fun p => !(p.1 == k))

def ConstMap.insert (m : ConstMap) (k : Option String) (v : Value) : ConstMap :=
  (k, v) :: m.erase k

def ConstMap.get (m : ConstMap) (k : Option String) : Option Value :=
  (m.find? (fun p => p.1 == k)).map (fun p => p.2)

/-- Dictionary lookup with an `Operand` key: only string (or `None`) operands
can match, since every stored key is an `instr.result`. -/
def ConstMap.find (m : ConstMap) : Operand → Option Value
  | .ostr s => m.get (some s)
  | .onone => m.get none
  | _ => none

/-- The operand value used by the folding pass for a binary/unary argument:
`constants.get(arg) if arg in constants else get_constant_value(arg) if
is_constant(arg) else None`.  Both a missing entry and a Python `None`
result collapse to `none` (the source then skips the fold). -/
def cfArgVal (m : ConstMap) (a : Operand) : Option Value :=
  match m.find a with
  | some v => if v = .vnone then none else some v
  | none =>
    if is_constant a then
      match get_constant_value a with
      | .vnone => none
      | v => some v
    else none

/-- Re-inserting a stored Python value into an instruction operand slot
(`ThreeAddressCode('assign', value, None, instr.result)`).  A stored string
constant re-enters *unquoted*, exactly as in the source.  Lists are never
stored in the constant table, so the `vlist` case is unreachable. -/
def valueToOperand : Value → Operand
  | .vint n => .oint n
  | .vfloat q => .ofloat q
  | .vbool b => .obool b
  | .vstr s => .ostr s
  | .vnone => .onone
  | .vpair a b => .opair a b
  | .vlist _ => .onone

/-- Unary Python negation on a stored constant.  This function is only
mentioned in the dead `op == '-'` arm of the unary fold branch: the binary
branch above it matches every `-` instruction first (see
`constant_folding_unary_minus_unreachable` reasoning in the C5 theorems),
so no call ever evaluates it on a non-numeric value. -/
def pyNegUnary : Value → Value
  | .vint n => .vint (-n)
  | .vfloat q => .vfloat (-q)
  | .vbool b => .vint (-(if b then 1 else 0))
  | _ => .vnone

/-- The ops on which every optimizer pass clears its table and emits the
instruction unchanged (basic-block boundaries). -/
def controlFlowOps : List String := ["label", "goto", "if_false", "if_true"]

/-- The binary operator list of the folding pass (note it contains `-`,
which therefore also captures unary minus instructions). -/
def foldableBinOps : List String :=
  ["+", "-", "*", "/", "%", "**", "<", ">", "<=", ">=", "==", "!="]

/-- One instruction of `Optimizer.constant_folding`: the emitted instruction
and the updated constant table, following the source's `if`/`elif` chain
exactly (including its order, which makes the unary `-` arm dead). -/
def cfStep (m : ConstMap) (instr : ThreeAddressCode) :
    ThreeAddressCode × ConstMap :=
  if instr.op ∈ controlFlowOps then
    (instr, ConstMap.empty)
  else if instr.op = "assign" then
    if is_constant instr.arg1 then
      (instr, m.insert instr.result (get_constant_value instr.arg1))
    else
      match m.find instr.arg1 with
      | some v =>
        (⟨"assign", valueToOperand v, .onone, instr.result⟩,
          m.insert instr.result v)
      | none => (instr, m.erase instr.result)
  else if instr.op ∈ foldableBinOps then
    match cfArgVal m instr.arg1, cfArgVal m instr.arg2 with
    | some v1, some v2 =>
      match evaluate_operation instr.op v1 v2 with
      | some rv =>
        (⟨"assign", valueToOperand rv, .onone, instr.result⟩,
          m.insert instr.result rv)
      | none => (instr, m)  -- `except: keep original` (no table change)
    | _, _ => (instr, m.erase instr.result)
  else if instr.op = "-" ∨ instr.op = "not" then
    match cfArgVal m instr.arg1 with
    | some v =>
      let rv := if instr.op = "-" then pyNegUnary v
        else .vbool (! pyTruthy v)
      (⟨"assign", valueToOperand rv, .onone, instr.result⟩,
        m.insert instr.result rv)
    | none => (instr, m)  -- note: the source does not invalidate here
  else
    (instr,
      if strOptTruthy instr.result then m.erase instr.result else m)

/-- `Optimizer.constant_folding`. -/
def constant_folding (code : List ThreeAddressCode) : List ThreeAddressCode :=
  (code.foldl
    (fun acc i =>
      let r := cfStep acc.2 i
      (acc.1 ++ [r.1], r.2))
    (([] : List ThreeAddressCode), ConstMap.empty)).1

/-- Copy table of the propagation pass (keys and values are names; keys come
from `instr.result` and may be `None`). -/
abbrev CopyMap : Type := List (Option String × String)

def CopyMap.empty : CopyMap := []

def CopyMap.erase (m : CopyMap) (k : Option String) : CopyMap :=
  m.filter (fun p => !(p.1 == k))

def CopyMap.insert (m : CopyMap) (k : Option String) (v : String) : CopyMap :=
  (k, v) :: m.erase k

def CopyMap.lookup (m : CopyMap) (k : Option String) : Option String :=
  (m.find? (fun p => p.1 == k)).map (fun p => p.2)

/-- `copies.get(arg, arg)` with an `Operand` key. -/
def CopyMap.get (m : CopyMap) (a : Operand) : Operand :=
  match a with
  | .ostr s => match m.lookup (some s) with
    | some t => .ostr t
    | none => a
  | .onone => match m.lookup none with
    | some t => .ostr t
    | none => a
  | _ => a

/-- Binary operator list of the propagation pass (unlike folding it also
covers `and`/`or`). -/
def copyBinOps : List String :=
  ["+", "-", "*", "/", "%", "**", "<", ">", "<=", ">=", "==", "!=",
    "and", "or"]

/-- One instruction of `Optimizer.copy_propagation`. -/
def cpStep (m : CopyMap) (instr : ThreeAddressCode) :
    ThreeAddressCode × CopyMap :=
  if instr.op ∈ controlFlowOps then
    (instr, CopyMap.empty)
  else if instr.op = "assign" &&
      (match instr.arg1 with
       | .ostr s => ! is_constant (.ostr s)
       | _ => false) then
    (instr,
      match instr.arg1 with
      | .ostr s => m.insert instr.result s
      | _ => m)
  else if instr.op ∈ copyBinOps then
    (⟨instr.op, m.get instr.arg1, m.get instr.arg2, instr.result⟩,
      m.erase instr.result)
  else if instr.op = "-" ∨ instr.op = "not" then
    (⟨instr.op, m.get instr.arg1, .onone, instr.result⟩,
      m.erase instr.result)
  else
    let a1 := if operandTruthy instr.arg1 then
        match instr.arg1 with
        | .ostr s => match m.lookup (some s) with
          | some t => .ostr t
          | none => instr.arg1
        | _ => instr.arg1
      else instr.arg1
    let a2 := if operandTruthy instr.arg2 then
        match instr.arg2 with
        | .ostr s => match m.lookup (some s) with
          | some t => .ostr t
          | none => instr.arg2
        | _ => instr.arg2
      else instr.arg2
    (⟨instr.op, a1, a2, instr.result⟩,
      if strOptTruthy instr.result then m.erase instr.result else m)

/-- `Optimizer.copy_propagation`. -/
def copy_propagation (code : List ThreeAddressCode) : List ThreeAddressCode :=
  (code.foldl
    (fun acc i =>
      let r := cpStep acc.2 i
      (acc.1 ++ [r.1], r.2))
    (([] : List ThreeAddressCode), CopyMap.empty)).1

/-- First pass of `Optimizer.dead_code_elimination`: the `used_vars` set
(accumulated as a list; only membership matters). -/
def sideEffectOps : List String :=
  ["if_false", "if_true", "return", "print", "param", "call"]

def usedVarsStep (acc : List String) (i : ThreeAddressCode) : List String :=
  let acc :=
    match i.arg1 with
    | .ostr s => if s ≠ "" ∧ ¬ is_constant (.ostr s) then acc ++ [s] else acc
    | _ => acc
  let acc :=
    match i.arg2 with
    | .ostr s => if s ≠ "" ∧ ¬ is_constant (.ostr s) then acc ++ [s] else acc
    | _ => acc
  if i.op ∈ sideEffectOps then
    let acc :=
      match i.arg1 with
      | .ostr s => if s ≠ "" then acc ++ [s] else acc
      | _ => acc
    match i.result with
    | some r => if r ≠ "" ∧ i.op ≠ "label" then acc ++ [r] else acc
    | none => acc
  else acc

def usedVars (code : List ThreeAddressCode) : List String :=
  code.foldl usedVarsStep []

/-- The instruction kinds the elimination pass always keeps. -/
def dceKeepOps : List String :=
  ["label", "goto", "if_false", "if_true", "begin_func", "end_func",
    "print", "return", "call", "param"]

/-- `Optimizer.dead_code_elimination`.  Note the final `else`: an
instruction outside the keep list whose `result` is `None` (or `""`) is
also kept — `param_decl` and malformed instructions land here. -/
def dead_code_elimination (code : List ThreeAddressCode) :
    List ThreeAddressCode :=
  let used := usedVars code
  code.foldl
    (fun acc i =>
      if i.op ∈ dceKeepOps then acc ++ [i]
      else if strOptTruthy i.result then
        match i.result with
        | some r =>
          if r ∈ used ∨ ¬ pyStartsWith r "t" then acc ++ [i] else acc
        | none => acc
      else acc ++ [i])
    []

/-- `Optimizer.optimize`: folding, then copy propagation, then dead-code
elimination. -/
def optimize (code : List ThreeAddressCode) : List ThreeAddressCode :=
  dead_code_elimination (copy_propagation (constant_folding code))

/-! ### Interpreter (interpreter.py)

The variable store is a Python dict whose keys are the instruction slots
that name variables — strings or `None` — hence `Option String` keys.
(`param_decl` could in principle store under a non-string key; such an
entry is never readable again by any instruction and is not modelled.)
Lists have Python reference semantics in the source; the model uses value
semantics.  The difference is observable only through in-place `array_set`
or `array_append` mutations seen through a frame's shallow-copied
`saved_variables`; no claim checked here exercises that aliasing. -/

/-- Errors: `RTErr.runtime` is a `RuntimeError` the interpreter raises
itself; `RTErr.host` is an uncaught host exception (`TypeError`,
`IndexError`, ...) or a behaviour outside the model (`random`, `input`,
fuel exhaustion of the driver loop). -/
inductive RTErr where
  | runtime (msg : String)
  | host (msg : String)
  deriving DecidableEq, Repr

abbrev VarMap : Type := List (Option String × Value)

def VarMap.empty : VarMap := []

def VarMap.erase (m : VarMap) (k : Option String) : VarMap :=
  m.filter (fun p => !(p.1 == k))

/-- Python dict assignment (`d[k] = v`): dictionary-overwrite semantics. -/
def VarMap.insert (m : VarMap) (k : Option String) (v : Value) : VarMap :=
  (k, v) :: m.erase k

def VarMap.find (m : VarMap) (k : Option String) : Option Value :=
  (m.find? (fun p => p.1 == k)).map (fun p => p.2)

/-- `Interpreter.get_value`: literal decoding or variable lookup. -/
def get_value (vars : VarMap) (operand : Operand) : Except RTErr Value :=
  match operand with
  | .onone => .ok .vnone
  | .obool b => .ok (.vbool b)
  | .oint n => .ok (.vint n)
  | .ofloat q => .ok (.vfloat q)
  | .opair a b => .ok (.vpair a b)  -- the final `return operand` of the source
  | .ostr s =>
    if quoted s then .ok (.vstr (strDropFirstLast s))
    else
      let parsed : Option Value :=
        if s.toList.contains '.' then (parseFloatPy s).map .vfloat
        else (parseIntPy s).map .vint
      match parsed with
      | some v => .ok v
      | none =>
        if s = "true" then .ok (.vbool true)
        else if s = "false" then .ok (.vbool false)
        else
          match vars.find (some s) with
          | some v => .ok v
          | none => .error (.runtime ("Undefined variable: " ++ s))

/-- Integer view for Python `isinstance(v, int)` (booleans are ints). -/
def asIntV : Value → Option ℤ
  | .vint n => some n
  | .vbool b => some (if b then 1 else 0)
  | _ => none

/-- The arithmetic dispatch of `execute_instruction` for
`+ - * / % **`.  `/` and `%` raise `RuntimeError` on a `== 0` right
operand *before* any type inspection (so `"%d" % 0` also raises the
`RuntimeError`, never reaching string formatting).  `*` with a string or
list operand and an int is Python sequence repetition; `%` with a string
left operand and a nonzero right operand is percent formatting
(`pyStrMod`), whose exceptions surface as uncaught host errors. -/
def interpArith (op : String) (l r : Value) : Except RTErr Value :=
  if op = "+" then
    match l, r with
    | .vstr a, .vstr b => .ok (.vstr (a ++ b))
    | .vlist a, .vlist b => .ok (.vlist (a ++ b))
    | _, _ =>
      match asIntV l, asIntV r with
      | some a, some b => .ok (.vint (a + b))
      | _, _ =>
        match asNum l, asNum r with
        | some (_, a), some (_, b) => .ok (.vfloat (a + b))
        | _, _ => .error (.host "TypeError")
  else if op = "-" then
    match asIntV l, asIntV r with
    | some a, some b => .ok (.vint (a - b))
    | _, _ =>
      match asNum l, asNum r with
      | some (_, a), some (_, b) => .ok (.vfloat (a - b))
      | _, _ => .error (.host "TypeError")
  else if op = "*" then
    match l, r with
    | .vstr s, .vint n => .ok (.vstr ⟨repList n.toNat s.toList⟩)
    | .vstr s, .vbool b => .ok (.vstr ⟨repList (cond b 1 0) s.toList⟩)
    | .vint n, .vstr s => .ok (.vstr ⟨repList n.toNat s.toList⟩)
    | .vbool b, .vstr s => .ok (.vstr ⟨repList (cond b 1 0) s.toList⟩)
    | .vlist xs, .vint n => .ok (.vlist (repList n.toNat xs))
    | .vlist xs, .vbool b => .ok (.vlist (repList (cond b 1 0) xs))
    | .vint n, .vlist xs => .ok (.vlist (repList n.toNat xs))
    | .vbool b, .vlist xs => .ok (.vlist (repList (cond b 1 0) xs))
    | _, _ =>
      match asIntV l, asIntV r with
      | some a, some b => .ok (.vint (a * b))
      | _, _ =>
        match asNum l, asNum r with
        | some (_, a), some (_, b) => .ok (.vfloat (a * b))
        | _, _ => .error (.host "TypeError")
  else if op = "/" then
    if isZeroValue r then .error (.runtime "Division by zero")
    else
      match asIntV l, asIntV r with
      | some a, some b => .ok (.vint (Int.fdiv a b))
      | _, _ =>
        match asNum l, asNum r with
        | some (_, a), some (_, b) => .ok (.vfloat (a / b))
        | _, _ => .error (.host "TypeError")
  else if op = "%" then
    if isZeroValue r then .error (.runtime "Modulo by zero")
    else
      match l with
      | .vstr fmt =>
        match pyStrMod fmt r with
        | some out => .ok (.vstr out)
        | none => .error (.host "TypeError")
      | _ =>
        match asIntV l, asIntV r with
        | some a, some b => .ok (.vint (Int.fmod a b))
        | _, _ =>
          match asNum l, asNum r with
          | some (_, a), some (_, b) =>
            .ok (.vfloat (a - b * ((a / b).floor : ℚ)))
          | _, _ => .error (.host "TypeError")
  else if op = "**" then
    match asIntV l, asIntV r with
    | some a, some b =>
      if 0 ≤ b then .ok (.vint (a ^ b.toNat))
      else if a = 0 then .error (.host "ZeroDivisionError")
      else .ok (.vfloat ((a : ℚ) ^ b))
    | _, _ =>
      match asNum l, asNum r with
      | some (_, a), some (_, b) =>
        if b.den = 1 then
          if a = 0 ∧ b < 0 then .error (.host "ZeroDivisionError")
          else .ok (.vfloat (a ^ b.num))
        else .error (.host "irrational: outside the rational model")
      | _, _ => .error (.host "TypeError")
  else .error (.host "unknown arithmetic op")

/-- The relational dispatch of `execute_instruction` for
`< > <= >= == !=`. -/
def interpRel (op : String) (l r : Value) : Except RTErr Value :=
  if op = "==" then .ok (.vbool (pyEq l r))
  else if op = "!=" then .ok (.vbool (! pyEq l r))
  else
    match pyCmp l r with
    | some o =>
      if op = "<" then .ok (.vbool (o = .lt))
      else if op = ">" then .ok (.vbool (o = .gt))
      else if op = "<=" then .ok (.vbool (o ≠ .gt))
      else .ok (.vbool (o ≠ .lt))
    | none => .error (.host "TypeError")

/-- A call-stack frame.  Python creates `param_index` lazily at the first
`param_decl`; since the key is only read there, initializing it to `0`
is equivalent. -/
structure Frame where
  return_address : ℕ
  saved_vars : VarMap
  params : List Value
  param_index : ℕ := 0
  return_value : Option Value := none
  deriving Repr

abbrev FuncTable : Type := List (Operand × ℕ)

def FuncTable.empty : FuncTable := []

def FuncTable.insert (m : FuncTable) (k : Operand) (v : ℕ) : FuncTable :=
  (k, v) :: m.filter (fun p => !(p.1 == k))

def FuncTable.find (m : FuncTable) (k : Operand) : Option ℕ :=
  (m.find? (fun p => p.1 == k)).map (fun p => p.2)

structure InterpState where
  code : List ThreeAddressCode
  functions : FuncTable
  vars : VarMap
  call_stack : List Frame
  pc : ℕ
  output : List String
  deriving Repr

/-- `Interpreter._build_function_table`: each `begin_func` maps its name
operand to the following index (later definitions overwrite earlier). -/
def buildFunctionTable (code : List ThreeAddressCode) : FuncTable :=
  code.enum.foldl
    (fun m p =>
      if p.2.op = "begin_func" then m.insert p.2.arg1 (p.1 + 1) else m)
    FuncTable.empty

/-- `Interpreter.find_label`: index of the first `label` instruction whose
result equals the jump target. -/
def find_label (code : List ThreeAddressCode) (target : Option String) :
    Option ℕ :=
  code.findIdx? (fun i => i.op == "label" && i.result == target)

/-- The scan of `Interpreter.find_function_end` from index `start`,
depth-counting nested `begin_func`/`end_func`; default is `len(code)`. -/
def findFuncEndGo (rest : List ThreeAddressCode) (idx : ℕ) (depth : ℤ)
    (len : ℕ) : ℕ :=
  match rest with
  | [] => len
  | i :: rest' =>
    if i.op = "begin_func" then findFuncEndGo rest' (idx + 1) (depth + 1) len
    else if i.op = "end_func" then
      if depth - 1 = 0 then idx + 1
      else findFuncEndGo rest' (idx + 1) (depth - 1) len
    else findFuncEndGo rest' (idx + 1) depth len

def find_function_end (code : List ThreeAddressCode) (start : ℕ) : ℕ :=
  findFuncEndGo (code.drop start) start 0 code.length

/-- Python list indexing: negative indices wrap once; out of range is an
`IndexError`. -/
def pyGet (code : List ThreeAddressCode) (i : ℤ) : Option ThreeAddressCode :=
  if 0 ≤ i then code.get? i.toNat
  else if -(code.length : ℤ) ≤ i then code.get? (code.length - (-i).toNat)
  else none

/-- `range(num_params)` accepts the int (or bool) in `call`'s `arg2`. -/
def operandAsCount : Operand → Option ℤ
  | .oint n => some n
  | .obool b => some (if b then 1 else 0)
  | _ => none

/-- The parameter-collection loop of the `call` branch: examine the
`n` instructions at indices `pc - n + i` (`i = 0..n-1`) and take the
values of those whose op is `param`. -/
def collectParams (code : List ThreeAddressCode) (vars : VarMap)
    (pc n : ℕ) : Except RTErr (List Value) :=
  (List.range n).foldlM
    (fun acc i =>
      match pyGet code ((pc : ℤ) - (n : ℤ) + (i : ℤ)) with
      | none => .error (.host "IndexError")
      | some pi =>
        if pi.op = "param" then do
          let v ← get_value vars pi.arg1
          pure (acc ++ [v])
        else pure acc)
    []

/-- Truncation of a value to a Python `int(x)` (used by `substr`). -/
def pyToInt : Value → Option ℤ
  | .vint n => some n
  | .vbool b => some (if b then 1 else 0)
  | .vfloat q => some (if 0 ≤ q then q.floor else -((-q).floor))
  | .vstr s => parseIntPy s
  | _ => none

/-- Python string slicing `s[a:b]` (negative indices wrap, then clamp). -/
def pySlice (s : String) (a b : ℤ) : String :=
  let len : ℤ := s.length
  let norm : ℤ → ℕ := fun i =>
    (if i < 0 then max 0 (len + i) else min i len).toNat
  let lo := norm a
  let hi := norm b
  ⟨(s.toList.take hi).drop lo⟩

/-- Bounds-checked integer view of an array index
(`isinstance(index, int)` — booleans pass). -/
def asIdx : Value → Option ℤ
  | .vint n => some n
  | .vbool b => some (if b then 1 else 0)
  | _ => none

/-- `Interpreter.execute_instruction`: one dispatch step.  Ops the
`if`/`elif` chain does not recognise fall through as no-ops, exactly as in
the source.  `builtin_random` and `builtin_input` interact with the host
(randomness / stdin) and are host effects outside the model. -/
def execute_instruction (st : InterpState) (instr : ThreeAddressCode) :
    Except RTErr InterpState :=
  if instr.op = "assign" then do
    let v ← get_value st.vars instr.arg1
    .ok { st with vars := st.vars.insert instr.result v }
  else if instr.op ∈ ["+", "-", "*", "/", "%", "**"] then do
    let l ← get_value st.vars instr.arg1
    let r ← get_value st.vars instr.arg2
    let v ← interpArith instr.op l r
    .ok { st with vars := st.vars.insert instr.result v }
  else if instr.op ∈ ["<", ">", "<=", ">=", "==", "!="] then do
    let l ← get_value st.vars instr.arg1
    let r ← get_value st.vars instr.arg2
    let v ← interpRel instr.op l r
    .ok { st with vars := st.vars.insert instr.result v }
  else if instr.op ∈ ["and", "or"] then do
    let l ← get_value st.vars instr.arg1
    let r ← get_value st.vars instr.arg2
    let v := if instr.op = "and" then (if pyTruthy l then r else l)
      else (if pyTruthy l then l else r)
    .ok { st with vars := st.vars.insert instr.result v }
  else if instr.op = "not" then do
    let v ← get_value st.vars instr.arg1
    .ok { st with
      vars := st.vars.insert instr.result (.vbool (! pyTruthy v)) }
  else if instr.op = "label" then .ok st
  else if instr.op = "goto" then
    match find_label st.code instr.result with
    | some i => .ok { st with pc := i }
    | none => .error (.runtime "Label not found")
  else if instr.op = "if_false" then do
    let c ← get_value st.vars instr.arg1
    if ! pyTruthy c then
      match find_label st.code instr.result with
      | some i => .ok { st with pc := i }
      | none => .error (.runtime "Label not found")
    else .ok st
  else if instr.op = "if_true" then do
    let c ← get_value st.vars instr.arg1
    if pyTruthy c then
      match find_label st.code instr.result with
      | some i => .ok { st with pc := i }
      | none => .error (.runtime "Label not found")
    else .ok st
  else if instr.op = "print" then do
    let v ← get_value st.vars instr.arg1
    .ok { st with output := st.output ++ [pyStr v] }
  else if instr.op = "param" then .ok st
  else if instr.op = "param_decl" then
    match st.call_stack with
    | [] => .ok st
    | f :: rest =>
      if h : f.param_index < f.params.length then
        let key : Option String :=
          match instr.arg1 with
          | .ostr s => some s
          | _ => none  -- non-string keys are write-only; see header note
        .ok { st with
          vars := st.vars.insert key (f.params.get ⟨f.param_index, h⟩),
          call_stack := { f with param_index := f.param_index + 1 } :: rest }
      else .ok st
  else if instr.op = "call" then do
    let n ←
      match operandAsCount instr.arg2 with
      | some c => pure (if c < 0 then 0 else c.toNat)
      | none => .error (.host "TypeError: range")
    let params ← collectParams st.code st.vars st.pc n
    match st.functions.find instr.arg1 with
    | none =>
      .error (.runtime ("Undefined function: " ++
        (match instr.arg1 with | .ostr s => s | _ => "")))
    | some entry =>
      .ok { st with
        call_stack :=
          { return_address := st.pc + 1,
            saved_vars := st.vars,
            params := params } :: st.call_stack,
        pc := entry }
  else if instr.op = "return" then
    match st.call_stack with
    | [] => .ok { st with pc := st.code.length }
    | f :: rest => do
      let rv0 ←
        if instr.arg1 = .onone then pure none
        else do
          let v ← get_value st.vars instr.arg1
          pure (some v)
      -- a returned Python `None` behaves as an absent return value
      let rv : Option Value := match rv0 with
        | some .vnone => none
        | x => x
      let newVars ←
        match rv with
        | some v =>
          match pyGet st.code ((f.return_address : ℤ) - 1) with
          | some ci =>
            if strOptTruthy ci.result then
              pure (f.saved_vars.insert ci.result v)
            else pure f.saved_vars
          | none => .error (.host "IndexError")
        | none => pure f.saved_vars
      .ok { st with
        vars := newVars, call_stack := rest, pc := f.return_address }
  else if instr.op = "begin_func" then
    .ok { st with pc := find_function_end st.code st.pc }
  else if instr.op = "end_func" then .ok st
  else if instr.op = "array_init" then
    .ok { st with vars := st.vars.insert instr.result (.vlist []) }
  else if instr.op = "array_append" then do
    let v ← get_value st.vars instr.arg1
    match st.vars.find instr.result with
    | some (.vlist xs) =>
      .ok { st with
        vars := st.vars.insert instr.result (.vlist (xs ++ [v])) }
    | some _ => .error (.host "AttributeError: append")
    | none =>
      .ok { st with
        vars := st.vars.insert instr.result (.vlist [v]) }
  else if instr.op = "array_get" then do
    let arr ← get_value st.vars instr.arg1
    let idx ← get_value st.vars instr.arg2
    match arr with
    | .vlist xs =>
      match asIdx idx with
      | some i =>
        if h : 0 ≤ i ∧ i.toNat < xs.length then
          .ok { st with
            vars :=
              st.vars.insert instr.result (xs.get ⟨i.toNat, h.2⟩) }
        else .error (.runtime ("Array index out of bounds: " ++ intStr i))
      | none => .error (.runtime "Array index must be integer")
    | _ => .error (.runtime "Cannot index non-array type")
  else if instr.op = "array_set" then
    match st.vars.find instr.result with
    | some (.vlist xs) => do
      let idx ← get_value st.vars instr.arg1
      let v ← get_value st.vars instr.arg2
      match asIdx idx with
      | some i =>
        if 0 ≤ i ∧ i.toNat < xs.length then
          .ok { st with
            vars :=
              st.vars.insert instr.result (.vlist (xs.set i.toNat v)) }
        else .error (.runtime ("Array index out of bounds: " ++ intStr i))
      | none => .error (.runtime "Array index must be integer")
    | _ => .error (.runtime "Cannot index non-array type")
  else if instr.op = "builtin_len" then do
    let v ← get_value st.vars instr.arg1
    match v with
    | .vlist xs =>
      .ok { st with
        vars := st.vars.insert instr.result (.vint xs.length) }
    | .vstr s =>
      .ok { st with
        vars := st.vars.insert instr.result (.vint s.length) }
    | _ => .error (.runtime "len() requires array or string")
  else if instr.op = "builtin_random" then
    .error (.host "randomness outside the model")
  else if instr.op = "builtin_substr" then
    match instr.arg2 with
    | .opair a b => do
      let sv ← get_value st.vars instr.arg1
      let av ← get_value st.vars (.ostr a)
      let bv ← get_value st.vars (.ostr b)
      match sv with
      | .vstr s =>
        match pyToInt av, pyToInt bv with
        | some i, some j =>
          .ok { st with
            vars :=
              st.vars.insert instr.result (.vstr (pySlice s i j)) }
        | _, _ => .error (.host "TypeError: int()")
      | _ => .error (.runtime "substr() requires string")
    | _ => .error (.host "TypeError: unpack")
  else if instr.op = "builtin_concat" then do
    let l ← get_value st.vars instr.arg1
    let r ← get_value st.vars instr.arg2
    match l, r with
    | .vstr a, .vstr b =>
      .ok { st with
        vars := st.vars.insert instr.result (.vstr (a ++ b)) }
    | _, _ => .error (.runtime "concat() requires string arguments")
  else if instr.op = "builtin_input" then
    .error (.host "stdin outside the model")
  else .ok st  -- unrecognised op: the elif chain falls through

/-- The driver loop of `Interpreter.execute`: advance `pc` by one only when
the instruction left it unchanged; stop when `pc` passes the end.  The
fuel argument makes the loop total; exhaustion is a host effect
(non-termination). -/
def interpRun : ℕ → InterpState → Except RTErr (List String)
  | 0, _ => .error (.host "fuel exhausted")
  | fuel + 1, st =>
    if h : st.pc < st.code.length then
      match execute_instruction st (st.code.get ⟨st.pc, h⟩) with
      | .error e => .error e
      | .ok st' =>
        interpRun fuel
          (if st'.pc = st.pc then { st' with pc := st'.pc + 1 } else st')
    else .ok st.output

/-- Construct the initial VM state and run (`Interpreter.__init__` +
`execute`). -/
def interpret (code : List ThreeAddressCode) (fuel : ℕ) :
    Except RTErr (List String) :=
  interpRun fuel
    { code := code, functions := buildFunctionTable code,
      vars := VarMap.empty, call_stack := [], pc := 0, output := [] }

/-! ### AST (parser.py) and IR generator (ir_generator.py)

The AST mirrors the parser's dataclasses (without source positions, which
the generator does not consult).  The parser can also leave a bare
expression in statement position (`expr; `), modelled by `Stmt.exprStmt`:
`IRGenerator.generate` dispatches on the node class, so such a node runs
its expression method and discards the result. -/

/-- `Literal.value` together with its Python type. -/
inductive LitVal where
  | lint (n : ℤ)
  | lfloat (q : ℚ)
  | lbool (b : Bool)
  | lstr (s : String)
  deriving DecidableEq, Repr

mutual

inductive Expr where
  | binOp (operator : String) (left right : Expr)
  | unaryOp (operator : String) (operand : Expr)
  | lit (value : LitVal)
  | ident (name : String)
  | functionCall (name : String) (arguments : List Expr)
  | arrayLiteral (elements : List Expr)
  | arrayAccess (array index : Expr)
  | builtInCall (function : String) (arguments : List Expr)
  deriving Repr

inductive Stmt where
  | varDeclaration (var_type name : String) (initializer : Option Expr)
  | assignment (name : String) (value : Expr)
  | ifStatement (condition : Expr) (then_block : List Stmt)
      (else_block : Option (List Stmt))
  | whileStatement (condition : Expr) (body : List Stmt)
  | forStatement (init : Stmt) (condition : Expr) (update : Stmt)
      (body : List Stmt)
  | functionDef (return_type name : String)
      (parameters : List (String × String)) (body : List Stmt)
  | returnStatement (value : Option Expr)
  | printStatement (expressions : List Expr)
  | block (statements : List Stmt)
  | arrayAssignment (array : String) (index value : Expr)
  | exprStmt (e : Expr)
  deriving Repr

end

/-- `generate_Literal`: strings come out quoted, booleans as
`true`/`false`, numbers via `str`. -/
def litStr : LitVal → String
  | .lstr v => "\"" ++ v ++ "\""
  | .lbool b => cond b "true" "false"
  | .lint n => intStr n
  | .lfloat q => floatStr q

/-- `IRGenerator` state: emitted code plus the monotone temp/label
counters. -/
structure GenSt where
  code : List ThreeAddressCode
  temp_count : ℕ
  label_count : ℕ

def GenSt.emit (s : GenSt) (i : ThreeAddressCode) : GenSt :=
  { s with code := s.code ++ [i] }

/-- `new_temp` / `new_label` name forms. -/
def mkTemp (n : ℕ) : String := "t" ++ natStr n

def mkLabel (n : ℕ) : String := "L" ++ natStr n

mutual

/-- `IRGenerator.generate` on an expression node: returns the updated state
and the operand string holding the result. -/
def genExpr : Expr → GenSt → GenSt × String
  | .binOp op l r, s =>
    let p1 := genExpr l s
    let p2 := genExpr r p1.1
    let t := mkTemp p2.1.temp_count
    let s3 := { p2.1 with temp_count := p2.1.temp_count + 1 }
    (s3.emit ⟨op, .ostr p1.2, .ostr p2.2, some t⟩, t)
  | .unaryOp op e, s =>
    let p := genExpr e s
    let t := mkTemp p.1.temp_count
    let s2 := { p.1 with temp_count := p.1.temp_count + 1 }
    (s2.emit ⟨op, .ostr p.2, .onone, some t⟩, t)
  | .lit v, s => (s, litStr v)
  | .ident n, s => (s, n)
  | .functionCall name args, s =>
    let s1 := genCallArgs args s
    let t := mkTemp s1.temp_count
    let s2 := { s1 with temp_count := s1.temp_count + 1 }
    (s2.emit ⟨"call", .ostr name, .oint args.length, some t⟩, t)
  | .arrayLiteral elems, s =>
    let t := mkTemp s.temp_count
    let s1 := { s with temp_count := s.temp_count + 1 }
    let s2 := s1.emit ⟨"array_init", .onone, .onone, some t⟩
    (genArrayElems elems t s2, t)
  | .arrayAccess a i, s =>
    let p1 := genExpr a s
    let p2 := genExpr i p1.1
    let t := mkTemp p2.1.temp_count
    let s3 := { p2.1 with temp_count := p2.1.temp_count + 1 }
    (s3.emit ⟨"array_get", .ostr p1.2, .ostr p2.2, some t⟩, t)
  | .builtInCall f args, s =>
    -- `temp = self.new_temp()` happens before the dispatch on `f.lower()`.
    -- A known builtin with too few arguments would raise `IndexError` in
    -- the source (unreachable after semantic analysis); the model then
    -- emits nothing, like the unknown-builtin fall-through.
    let fl := strToLower f
    let t := mkTemp s.temp_count
    let s1 := { s with temp_count := s.temp_count + 1 }
    if fl = "len" then
      match args with
      | a :: _ =>
        let p := genExpr a s1
        (p.1.emit ⟨"builtin_len", .ostr p.2, .onone, some t⟩, t)
      | [] => (s1, t)
    else if fl = "random" then
      match args with
      | a :: b :: _ =>
        let p1 := genExpr a s1
        let p2 := genExpr b p1.1
        (p2.1.emit ⟨"builtin_random", .ostr p1.2, .ostr p2.2, some t⟩, t)
      | _ => (s1, t)
    else if fl = "substr" then
      match args with
      | a :: b :: c :: _ =>
        let p1 := genExpr a s1
        let p2 := genExpr b p1.1
        let p3 := genExpr c p2.1
        (p3.1.emit ⟨"builtin_substr", .ostr p1.2, .opair p2.2 p3.2, some t⟩,
          t)
      | _ => (s1, t)
    else if fl = "concat" then
      match args with
      | a :: b :: _ =>
        let p1 := genExpr a s1
        let p2 := genExpr b p1.1
        (p2.1.emit ⟨"builtin_concat", .ostr p1.2, .ostr p2.2, some t⟩, t)
      | _ => (s1, t)
    else if fl = "input" then
      match args with
      | a :: _ =>
        let p := genExpr a s1
        (p.1.emit ⟨"builtin_input", .ostr p.2, .onone, some t⟩, t)
      | [] => (s1, t)
    else (s1, t)

/-- The argument loop of `generate_FunctionCall`: generate each argument
and emit its `param` immediately after (so a nested call's instructions
land *between* the enclosing call's `param`s). -/
def genCallArgs : List Expr → GenSt → GenSt
  | [], s => s
  | a :: rest, s =>
    let p := genExpr a s
    genCallArgs rest (p.1.emit ⟨"param", .ostr p.2, .onone, none⟩)

/-- The element loop of `generate_ArrayLiteral`. -/
def genArrayElems : List Expr → String → GenSt → GenSt
  | [], _, s => s
  | e :: rest, t, s =>
    let p := genExpr e s
    genArrayElems rest t (p.1.emit ⟨"array_append", .ostr p.2, .onone, some t⟩)

/-- The expression loop of `generate_PrintStatement`. -/
def genPrintExprs : List Expr → GenSt → GenSt
  | [], s => s
  | e :: rest, s =>
    let p := genExpr e s
    genPrintExprs rest (p.1.emit ⟨"print", .ostr p.2, .onone, none⟩)

/-- `IRGenerator.generate` on a statement node. -/
def genStmt : Stmt → GenSt → GenSt
  | .varDeclaration _ name init, s =>
    match init with
    | some e =>
      let p := genExpr e s
      p.1.emit ⟨"assign", .ostr p.2, .onone, some name⟩
    | none => s
  | .assignment name e, s =>
    let p := genExpr e s
    p.1.emit ⟨"assign", .ostr p.2, .onone, some name⟩
  | .ifStatement c tb eb, s =>
    let pc := genExpr c s
    let fl := mkLabel pc.1.label_count
    let s2 := { pc.1 with label_count := pc.1.label_count + 1 }
    let el := mkLabel s2.label_count
    let s3 := { s2 with label_count := s2.label_count + 1 }
    let s4 := s3.emit ⟨"if_false", .ostr pc.2, .onone, some fl⟩
    let s5 := genStmts tb s4
    let s6 := match eb with
      | some _ => s5.emit ⟨"goto", .onone, .onone, some el⟩
      | none => s5
    let s7 := s6.emit ⟨"label", .onone, .onone, some fl⟩
    match eb with
    | some els =>
      (genStmts els s7).emit ⟨"label", .onone, .onone, some el⟩
    | none => s7
  | .whileStatement c body, s =>
    let sl := mkLabel s.label_count
    let s1 := { s with label_count := s.label_count + 1 }
    let el := mkLabel s1.label_count
    let s2 := { s1 with label_count := s1.label_count + 1 }
    let s3 := s2.emit ⟨"label", .onone, .onone, some sl⟩
    let pc := genExpr c s3
    let s4 := pc.1.emit ⟨"if_false", .ostr pc.2, .onone, some el⟩
    let s5 := genStmts body s4
    let s6 := s5.emit ⟨"goto", .onone, .onone, some sl⟩
    s6.emit ⟨"label", .onone, .onone, some el⟩
  | .forStatement init c update body, s =>
    let s0 := genStmt init s
    let sl := mkLabel s0.label_count
    let s1 := { s0 with label_count := s0.label_count + 1 }
    let el := mkLabel s1.label_count
    let s2 := { s1 with label_count := s1.label_count + 1 }
    let s3 := s2.emit ⟨"label", .onone, .onone, some sl⟩
    let pc := genExpr c s3
    let s4 := pc.1.emit ⟨"if_false", .ostr pc.2, .onone, some el⟩
    let s5 := genStmts body s4
    let s6 := genStmt update s5
    let s7 := s6.emit ⟨"goto", .onone, .onone, some sl⟩
    s7.emit ⟨"label", .onone, .onone, some el⟩
  | .functionDef _ name params body, s =>
    let s1 := s.emit ⟨"begin_func", .ostr name, .onone, none⟩
    let s2 := params.foldl
      (fun acc p => acc.emit ⟨"param_decl", .ostr p.2, .onone, none⟩) s1
    let s3 := genStmts body s2
    s3.emit ⟨"end_func", .ostr name, .onone, none⟩
  | .returnStatement v, s =>
    match v with
    | some e =>
      let p := genExpr e s
      p.1.emit ⟨"return", .ostr p.2, .onone, none⟩
    | none => s.emit ⟨"return", .onone, .onone, none⟩
  | .printStatement exprs, s => genPrintExprs exprs s
  | .block stmts, s => genStmts stmts s
  | .arrayAssignment arr i v, s =>
    let p1 := genExpr i s
    let p2 := genExpr v p1.1
    p2.1.emit ⟨"array_set", .ostr p1.2, .ostr p2.2, some arr⟩
  | .exprStmt e, s => (genExpr e s).1

def genStmts : List Stmt → GenSt → GenSt
  | [], s => s
  | st :: rest, s => genStmts rest (genStmt st s)

end

/-- `generate_Program` from the initial generator state. -/
def genProgram (prog : List Stmt) : GenSt :=
  genStmts prog ⟨[], 0, 0⟩

/-! ### Label bookkeeping for the generator invariant (C6) -/

/-- Number of `label` instructions defining `name` in a code segment. -/
def labCount (Δ : List ThreeAddressCode) (name : String) : ℕ :=
  Δ.countP (fun i => i.op == "label" && i.result == some name)

/-- Number of jump instructions (`goto`, `if_false`, `if_true`) targeting
`name` in a code segment. -/
def jmpCount (Δ : List ThreeAddressCode) (name : String) : ℕ :=
  Δ.countP (fun i =>
    (i.op == "goto" || i.op == "if_false" || i.op == "if_true") &&
      i.result == some name)

/-- A segment with neither labels nor jumps. -/
def noCF (Δ : List ThreeAddressCode) : Prop :=
  ∀ i ∈ Δ, i.op ≠ "label" ∧ i.op ≠ "goto" ∧ i.op ≠ "if_false" ∧
    i.op ≠ "if_true"

/-- The generator invariant for the code segment a statement contributes
while the label counter runs from `a` to `b`: every label or jump name in
the segment is `L i` for some `a ≤ i < b`; no label is defined twice; and
every jump target is defined exactly once *within the segment*. -/
def SegOK (a b : ℕ) (Δ : List ThreeAddressCode) : Prop :=
  (∀ name, (labCount Δ name ≠ 0 ∨ jmpCount Δ name ≠ 0) →
    ∃ i, a ≤ i ∧ i < b ∧ name = mkLabel i) ∧
  (∀ name, labCount Δ name ≤ 1) ∧
  (∀ name, 0 < jmpCount Δ name → labCount Δ name = 1)

/-- The binary operators the parser can produce (precedence ladder). -/
def parserBinOps : List String :=
  ["or", "and", "==", "!=", "<", ">", "<=", ">=", "+", "-", "*", "/",
    "%", "**"]

mutual

/-- ASTs as produced by the parser: operator fields range over the
parser's fixed operator sets (the generator copies the operator string
into the instruction `op`, so an arbitrary string there could forge
control-flow ops). -/
def wfExpr : Expr → Bool
  | .binOp op l r => decide (op ∈ parserBinOps) && wfExpr l && wfExpr r
  | .unaryOp op e => (op == "-" || op == "not") && wfExpr e
  | .lit _ => true
  | .ident _ => true
  | .functionCall _ args => wfExprList args
  | .arrayLiteral es => wfExprList es
  | .arrayAccess a i => wfExpr a && wfExpr i
  | .builtInCall _ args => wfExprList args

def wfExprList : List Expr → Bool
  | [] => true
  | e :: rest => wfExpr e && wfExprList rest

def wfStmt : Stmt → Bool
  | .varDeclaration _ _ init =>
    match init with
    | some e => wfExpr e
    | none => true
  | .assignment _ e => wfExpr e
  | .ifStatement c tb eb =>
    wfExpr c && wfStmtList tb &&
      (match eb with
       | some els => wfStmtList els
       | none => true)
  | .whileStatement c b => wfExpr c && wfStmtList b
  | .forStatement i c u b =>
    wfStmt i && wfExpr c && wfStmt u && wfStmtList b
  | .functionDef _ _ _ b => wfStmtList b
  | .returnStatement v =>
    match v with
    | some e => wfExpr e
    | none => true
  | .printStatement es => wfExprList es
  | .block sts => wfStmtList sts
  | .arrayAssignment _ i v => wfExpr i && wfExpr v
  | .exprStmt e => wfExpr e

def wfStmtList : List Stmt → Bool
  | [] => true
  | st :: rest => wfStmt st && wfStmtList rest

end

/-! ### Concrete programs and states used by the claim theorems -/

/-- The AST the parser produces for `int x = 2 + 3 * 4; print(x);`
(precedence makes `*` bind under `+`). -/
def astC1 : List Stmt :=
  [.varDeclaration "int" "x"
     (some (.binOp "+" (.lit (.lint 2))
       (.binOp "*" (.lit (.lint 3)) (.lit (.lint 4))))),
   .printStatement [.ident "x"]]

/-- The AST for
`function int g(int y) { return y; }`
`function int f(int a, int b) { return a; }`
`int r = f(1, g(2)); print(r);` — a call whose second argument is itself a
call. -/
def astC2 : List Stmt :=
  [.functionDef "int" "g" [("int", "y")]
     [.returnStatement (some (.ident "y"))],
   .functionDef "int" "f" [("int", "a"), ("int", "b")]
     [.returnStatement (some (.ident "a"))],
   .varDeclaration "int" "r"
     (some (.functionCall "f"
       [.lit (.lint 1), .functionCall "g" [.lit (.lint 2)]])),
   .printStatement [.ident "r"]]

/-- The variable store the VM holds when it reaches the `call f, 2` at
index 13 of `genProgram astC2` (the inner `g(2)` already returned into
`t0`). -/
def varsAtCallC2 : VarMap := VarMap.empty.insert (some "t0") (.vint 2)

/-- Two-instruction program for the C3 witness: a `call` whose result is
`x` followed by the `return` under test. -/
def c3Code : List ThreeAddressCode :=
  [⟨"call", .ostr "f", .oint 0, some "x"⟩,
   ⟨"return", .ostr "1", .onone, none⟩]

def c3Frame : Frame :=
  { return_address := 1, saved_vars := VarMap.empty, params := [] }

def c3State : InterpState :=
  { code := c3Code, functions := buildFunctionTable c3Code,
    vars := VarMap.empty, call_stack := [c3Frame], pc := 1, output := [] }

/-- Minimal state for the C4 and C10 witnesses. -/
def emptyState : InterpState :=
  { code := [], functions := buildFunctionTable [],
    vars := VarMap.empty, call_stack := [], pc := 0, output := [] }

instance {ε α : Type} [DecidableEq ε] [DecidableEq α] :
    DecidableEq (Except ε α) := fun x y =>
  match x, y with
  | .ok a, .ok b =>
    if h : a = b then .isTrue (by rw [h]) else .isFalse (by simp [h])
  | .error a, .error b =>
    if h : a = b then .isTrue (by rw [h]) else .isFalse (by simp [h])
  | .ok _, .error _ => .isFalse (by simp)
  | .error _, .ok _ => .isFalse (by simp)

/-! ### Symbol table (semantic_analyzer.py)

`SymbolTable.define` rejects a name already present in the *current*
scope's dict; `lookup` walks the parent chain.  The stored symbol dicts
carry `type` and `data_type` (the extra kwargs play no role in the scope
mechanics the claims are about). -/

structure SymInfo where
  symbol_type : String
  data_type : String
  deriving DecidableEq, Repr

/-- A symbol table with its optional parent pointer: `root` is the table
with `parent=None`, `child` carries the parent scope. -/
inductive SymbolTable where
  | root (symbols : List (String × SymInfo))
  | child (symbols : List (String × SymInfo)) (parent : SymbolTable)
  deriving DecidableEq, Repr

def SymbolTable.symbols : SymbolTable → List (String × SymInfo)
  | .root s => s
  | .child s _ => s

/-- Dict lookup in a single scope (`self.symbols`). -/
def symsGet (syms : List (String × SymInfo)) (name : String) :
    Option SymInfo :=
  (syms.find? (fun p => p.1 == name)).map (fun p => p.2)

/-- `SymbolTable.define`: fails iff the name is in the current scope. -/
def SymbolTable.define (t : SymbolTable) (name : String)
    (symbol_type data_type : String) : Except String SymbolTable :=
  if (symsGet t.symbols name).isSome then
    .error ("Redeclaration of " ++ name ++ " in the same scope")
  else
    match t with
    | .root syms => .ok (.root ((name, ⟨symbol_type, data_type⟩) :: syms))
    | .child syms p =>
      .ok (.child ((name, ⟨symbol_type, data_type⟩) :: syms) p)

/-- `SymbolTable.lookup`: current scope first, then the parent chain. -/
def SymbolTable.lookup : SymbolTable → String → Option SymInfo
  | .root syms, name => symsGet syms name
  | .child syms p, name =>
    match symsGet syms name with
    | some v => some v
    | none => SymbolTable.lookup p name

/-! ### Lexer string reading (lexer.py, `Lexer.read_string`) -/

/-- Outcome of `read_string`: a decoded string token (carrying the start
position), the `Unterminated string literal` lexical error (carrying the
position at which it is raised), or an uncaught host `TypeError` (the
`string_value += next_char` with `next_char = None` when the input ends
right after a backslash). -/
inductive RSResult where
  | tok (value : String) (line col : ℕ)
  | lexError (line col : ℕ) (msg : String)
  | hostError
  deriving DecidableEq, Repr

/-- `Lexer.advance` position update. -/
def advancePos (c : Char) (line col : ℕ) : ℕ × ℕ :=
  if c = '\n' then (line + 1, 1) else (line, col + 1)

/-- The scanning loop of `read_string` (after the opening quote). -/
def read_string_loop (src : List Char) (line col : ℕ) (acc : List Char)
    (startLine startCol : ℕ) : RSResult :=
  match src with
  | [] => .lexError line col "Unterminated string literal"
  | c :: rest =>
    if c = '"' then .tok ⟨acc⟩ startLine startCol
    else if c = '\\' then
      let p := advancePos c line col
      match rest with
      | [] => .hostError
      | d :: rest2 =>
        let decoded := if d = 'n' then '\n' else if d = 't' then '\t'
          else if d = '\\' then '\\' else if d = '"' then '"' else d
        let p2 := advancePos d p.1 p.2
        read_string_loop rest2 p2.1 p2.2 (acc ++ [decoded]) startLine startCol
    else
      let p := advancePos c line col
      read_string_loop rest p.1 p.2 (acc ++ [c]) startLine startCol

/-- `Lexer.read_string`: record the start position, consume the opening
quote, scan. -/
def read_string (src : List Char) (line col : ℕ) : RSResult :=
  match src with
  | [] => read_string_loop [] line col [] line col
  | c :: rest =>
    let p := advancePos c line col
    read_string_loop rest p.1 p.2 [] line col

/-- A string-literal body as a list of items: a plain character or a
backslash escape. -/
inductive SItem where
  | plain (c : Char)
  | esc (c : Char)
  deriving DecidableEq, Repr

def encodeItems : List SItem → List Char
  | [] => []
  | .plain c :: rest => c :: encodeItems rest
  | .esc c :: rest => '\\' :: c :: encodeItems rest

/-- The decode table of `read_string`: the four named escapes, any other
escape is the literal following character. -/
def decodeEsc (d : Char) : Char :=
  if d = 'n' then '\n' else if d = 't' then '\t' else if d = '\\' then '\\'
  else if d = '"' then '"' else d

def decodeItems : List SItem → List Char
  | [] => []
  | .plain c :: rest => c :: decodeItems rest
  | .esc c :: rest => decodeEsc c :: decodeItems rest

/-- Well-formed body: plain characters are neither `"` nor `\`. -/
def wfItems : List SItem → Bool
  | [] => true
  | .plain c :: rest => (c ≠ '"' ∧ c ≠ '\\') && wfItems rest
  | .esc _ :: rest => wfItems rest

/-- The optimized IR of `astC1` (proved equal in the C1 theorem). -/
def irC1opt : List ThreeAddressCode :=
  [⟨"assign", .oint 14, .onone, some "x"⟩,
   ⟨"print", .ostr "x", .onone, none⟩]

/-- The generated IR of `astC2` (proved equal in the C2 theorem). -/
def irC2 : List ThreeAddressCode :=
  [⟨"begin_func", .ostr "g", .onone, none⟩,
   ⟨"param_decl", .ostr "y", .onone, none⟩,
   ⟨"return", .ostr "y", .onone, none⟩,
   ⟨"end_func", .ostr "g", .onone, none⟩,
   ⟨"begin_func", .ostr "f", .onone, none⟩,
   ⟨"param_decl", .ostr "a", .onone, none⟩,
   ⟨"param_decl", .ostr "b", .onone, none⟩,
   ⟨"return", .ostr "a", .onone, none⟩,
   ⟨"end_func", .ostr "f", .onone, none⟩,
   ⟨"param", .ostr "1", .onone, none⟩,
   ⟨"param", .ostr "2", .onone, none⟩,
   ⟨"call", .ostr "g", .oint 1, some "t0"⟩,
   ⟨"param", .ostr "t0", .onone, none⟩,
   ⟨"call", .ostr "f", .oint 2, some "t1"⟩,
   ⟨"assign", .ostr "t1", .onone, some "r"⟩,
   ⟨"print", .ostr "r", .onone, none⟩]

/-- The property an expression contributes to the generated code: only
appended instructions, an unchanged label counter, and no label or jump
instructions among them. -/
def ExprSpec (s s2 : GenSt) : Prop :=
  ∃ Δ, s2.code = s.code ++ Δ ∧ s2.label_count = s.label_count ∧ noCF Δ

/-- The property a statement contributes to the generated code: only
appended instructions, a non-decreasing label counter, and a segment
satisfying the label invariant over the label-counter interval. -/
def StmtSpec (s s2 : GenSt) : Prop :=
  s.label_count ≤ s2.label_count ∧
  ∃ Δ, s2.code = s.code ++ Δ ∧ SegOK s.label_count s2.label_count Δ

/-! ### Theorems -/

theorem digitChar_toNat (n : ℕ) : (digitChar n).toNat = 48 + n % 10 := by
  have h : n % 10 < 10 := Nat.mod_lt _ (by norm_num)
  unfold digitChar
  interval_cases h : n % 10 <;> simp_all

theorem charsVal_append_digit (cs : List Char) (c : Char) :
    charsVal (cs ++ [c]) = 10 * charsVal cs + (c.toNat - 48) := by
  simp [charsVal, List.foldl_append]

theorem charsVal_natToChars (fuel n : ℕ) (h : n < 10 ^ fuel) :
    charsVal (natToChars fuel n) = n := by
  induction fuel generalizing n with
  | zero => simp at h; simp [h, natToChars, charsVal]
  | succ fuel ih =>
    by_cases h10 : n < 10
    · have hn : n % 10 = n := Nat.mod_eq_of_lt h10
      simp only [natToChars, if_pos h10, charsVal, List.foldl]
      rw [digitChar_toNat, hn]
      omega
    · have hdiv : n / 10 < 10 ^ fuel := by
        rw [Nat.div_lt_iff_lt_mul (by norm_num)]
        calc n < 10 ^ (fuel + 1) := h
        _ = 10 ^ fuel * 10 := by ring
      simp only [natToChars, if_neg h10]
      rw [charsVal_append_digit, ih _ hdiv, digitChar_toNat]
      omega

theorem natStr_injective : Function.Injective natStr := by
  intro m n h
  have hm : m < 10 ^ (m + 1) :=
    lt_of_lt_of_le (Nat.lt_pow_self (by norm_num) m)
      (Nat.pow_le_pow_right (by norm_num) (Nat.le_succ m))
  have hn : n < 10 ^ (n + 1) :=
    lt_of_lt_of_le (Nat.lt_pow_self (by norm_num) n)
      (Nat.pow_le_pow_right (by norm_num) (Nat.le_succ n))
  have hdata : natToChars (m + 1) m = natToChars (n + 1) n := by
    have := congrArg String.data h
    simpa [natStr] using this
  calc m = charsVal (natToChars (m + 1) m) := (charsVal_natToChars _ _ hm).symm
  _ = charsVal (natToChars (n + 1) n) := by rw [hdata]
  _ = n := charsVal_natToChars _ _ hn

/-- A value that is Python-`== 0` is numeric with rational view `0`. -/
theorem isZero_asNum (v : Value) (hz : isZeroValue v = true) :
    ∃ f, asNum v = some (f, 0) := by
  unfold isZeroValue pyEq at hz
  match hv : asNum v with
  | some (f, b) =>
    rw [hv] at hz
    simp [asNum] at hz
    subst hz
    exact ⟨f, rfl⟩
  | none =>
    rw [hv] at hz
    cases v <;> simp_all [asNum]

/-- Folding a division whose right operand is `== 0` raises (hence the
fold is abandoned). -/
theorem evaluate_operation_div_zero (v1 v2 : Value)
    (hz : isZeroValue v2 = true) : evaluate_operation "/" v1 v2 = none := by
  obtain ⟨f, hf⟩ := isZero_asNum v2 hz
  unfold evaluate_operation
  simp only [String.reduceEq, reduceIte, hf]
  cases hv1 : asNum v1 <;> simp

/-- Folding a modulo whose right operand is `== 0` raises. -/
theorem evaluate_operation_mod_zero (v1 v2 : Value)
    (hz : isZeroValue v2 = true) (hs : ∀ s, v1 ≠ .vstr s) :
    evaluate_operation "%" v1 v2 = none := by
  obtain ⟨f, hf⟩ := isZero_asNum v2 hz
  unfold evaluate_operation
  simp only [String.reduceEq, reduceIte, hf]
  cases v1 with
  | vstr s => exact absurd rfl (hs s)
  | vint n => simp [asNum]
  | vfloat q => simp [asNum]
  | vbool b => simp [asNum]
  | vlist xs => simp [asNum]
  | vnone => simp [asNum]
  | vpair a b => simp [asNum]

/-- `find?` after filtering away another key is unchanged. -/
theorem find?_filter_ne {α : Type} (y k : Option String)
    (h : y ≠ k) (m : List (Option String × α)) :
    (m.filter (fun p => !(p.1 == k))).find? (fun p => p.1 == y) =
      m.find? (fun p => p.1 == y) := by
  induction m with
  | nil => rfl
  | cons hd tl ih =>
    by_cases hhd : hd.1 = k
    · have h1 : (hd.1 == k) = true := by simp [hhd]
      have h2 : (hd.1 == y) = false := by
        simp only [beq_eq_false_iff_ne, hhd]
        exact fun he => h he.symm
      simp [List.filter_cons, h1, List.find?_cons, h2, ih]
    · have h1 : (hd.1 == k) = false := by simp [hhd]
      by_cases hy : hd.1 = y
      · have h2 : (hd.1 == y) = true := by simp [hy]
        simp [List.filter_cons, h1, List.find?_cons, h2]
      · have h2 : (hd.1 == y) = false := by simp [hy]
        simp [List.filter_cons, h1, List.find?_cons, h2, ih]

/-- Dictionary-overwrite insertion touches no other key. -/
theorem VarMap.find_insert_ne (m : VarMap) (k y : Option String) (v : Value)
    (h : y ≠ k) : (m.insert k v).find y = m.find y := by
  unfold VarMap.insert VarMap.find VarMap.erase
  have hk : (k == y) = false := by
    simp only [beq_eq_false_iff_ne]
    exact fun he => h he.symm
  simp only [List.find?_cons, hk]
  rw [find?_filter_ne y k h m]

set_option maxHeartbeats 4000000 in
/-- C1: for the program `int x = 2 + 3 * 4; print(x);`, running the IR
generator and then the optimizer yields an IR whose only instruction with
result `x` is the single `assign x = 14`, and interpreting the optimized
IR produces the captured output `["14"]`. -/
theorem C1_constant_folding_and_output :
    (optimize (genProgram astC1).code).filter
        (fun i => i.result == some "x") =
      [⟨"assign", .oint 14, .onone, some "x"⟩] ∧
    interpret (optimize (genProgram astC1).code) 100 = .ok ["14"] := by
  have h : optimize (genProgram astC1).code = irC1opt := by decide
  rw [h]
  exact ⟨by decide, by decide⟩

set_option maxHeartbeats 4000000 in
/-- C2 (evidence of the code bug): for `int r = f(1, g(2)); print(r);`
with `f(a, b) = a` and `g(y) = y`, the generator emits the two `param`
instructions of `f` in argument order (indices 9 and 12) with the nested
call's code between them, but the interpreter's `call` collection loop
examines only the 2 slots immediately before index 13 and therefore
collects `[2]` instead of the evaluated arguments `[1, 2]`; the program
prints `2` where the specified semantics (first parameter of `f`) gives
`1`. -/
theorem C2_call_drops_nested_call_argument :
    (genProgram astC2).code.get? 9 =
      some ⟨"param", .ostr "1", .onone, none⟩ ∧
    (genProgram astC2).code.get? 12 =
      some ⟨"param", .ostr "t0", .onone, none⟩ ∧
    (genProgram astC2).code.get? 13 =
      some ⟨"call", .ostr "f", .oint 2, some "t1"⟩ ∧
    collectParams (genProgram astC2).code varsAtCallC2 13 2 =
      .ok [.vint 2] ∧
    collectParams (genProgram astC2).code varsAtCallC2 13 2 ≠
      .ok [.vint 1, .vint 2] ∧
    interpret (genProgram astC2).code 1000 = .ok ["2"] := by
  have h : (genProgram astC2).code = irC2 := by decide
  rw [h]
  exact ⟨by decide, by decide, by decide, by decide, by decide, by decide⟩

/-- C3: executing `return` with a non-empty call stack pops the top frame,
restores the variable store to the frame's saved copy, writes the present
return value into the `result` name of the `call` instruction at index
`return_pc - 1`, sets `pc` to `return_pc`, and changes no other variable
of the restored store. -/
theorem C3_return_restores_frame (st : InterpState)
    (instr : ThreeAddressCode) (f : Frame) (rest : List Frame) (v : Value)
    (ci : ThreeAddressCode) (r : String)
    (hop : instr.op = "return")
    (hstack : st.call_stack = f :: rest)
    (harg : instr.arg1 ≠ .onone)
    (hval : get_value st.vars instr.arg1 = .ok v)
    (hv : v ≠ .vnone)
    (hci : pyGet st.code ((f.return_address : ℤ) - 1) = some ci)
    (hr : ci.result = some r) (hr' : r ≠ "") :
    execute_instruction st instr =
      .ok { st with
        vars := f.saved_vars.insert (some r) v, call_stack := rest,
        pc := f.return_address } ∧
    (f.saved_vars.insert (some r) v).find (some r) = some v ∧
    ∀ y, y ≠ some r →
      (f.saved_vars.insert (some r) v).find y = f.saved_vars.find y := by
  refine ⟨?_, by simp [VarMap.insert, VarMap.find], ?_⟩
  · unfold execute_instruction
    simp only [hop, hstack, String.reduceEq, reduceIte, List.mem_cons,
      List.not_mem_nil, or_false, reduceCtorEq, if_false, if_true]
    rw [if_neg harg]
    simp only [hval, bind, Except.bind, pure, Except.pure]
    have hmatch : (match (some v : Option Value) with
        | some Value.vnone => (none : Option Value)
        | x => x) = some v := by
      cases v <;> simp_all
    rw [hmatch, hci]
    simp [hr, strOptTruthy, hr']
  · intro y hy
    exact VarMap.find_insert_ne f.saved_vars (some r) y v hy

/-- C3 witness at a concrete state. -/
theorem C3_return_restores_frame_witness :
    execute_instruction c3State ⟨"return", .ostr "1", .onone, none⟩ =
      .ok { c3State with
        vars := c3Frame.saved_vars.insert (some "x") (.vint 1),
        call_stack := [], pc := c3Frame.return_address } ∧
    (c3Frame.saved_vars.insert (some "x") (.vint 1)).find (some "z") =
      c3Frame.saved_vars.find (some "z") := by
  have h := C3_return_restores_frame c3State
    ⟨"return", .ostr "1", .onone, none⟩ c3Frame [] (.vint 1)
    ⟨"call", .ostr "f", .oint 0, some "x"⟩ "x"
    rfl rfl (by decide) (by decide) (by decide) (by decide) rfl
    (by decide)
  exact ⟨h.1, h.2.2 (some "z") (by decide)⟩

/-- C4 counterexample: the claim says every binary `/` or `%` instruction
with constant operands and right operand `== 0` is emitted unchanged; but
Python `%` on a *string* left operand is percent formatting — `"%d" % 0`
evaluates to `"0"` without raising — so the folding pass replaces
`t0 = "%d" % "0"` by `assign t0 = "0"` instead of keeping it. -/
theorem C4_string_modulo_folds :
    constant_folding [⟨"%", .ostr "\"%d\"", .ostr "0", some "t0"⟩] =
      [⟨"assign", .ostr "0", .onone, some "t0"⟩] ∧
    constant_folding [⟨"%", .ostr "\"%d\"", .ostr "0", some "t0"⟩] ≠
      [⟨"%", .ostr "\"%d\"", .ostr "0", some "t0"⟩] := by
  decide

/-- C4 (amended): a binary `/` instruction whose two operands are
constants with right operand `== 0` is always emitted unchanged, and so
is such a `%` instruction whose left constant is not a string (numeric
values raise `ZeroDivisionError`, caught by the fold's `except`; a string
left operand of `%` is formatting, and may fold).  The interpreter raises
a `RuntimeError` whenever it executes a `/` or `%` whose resolved right
operand is `== 0` — its zero check precedes any type inspection, so this
holds for string operands too. -/
theorem C4_division_by_zero_guarded :
    (∀ (m : ConstMap) (instr : ThreeAddressCode) (v1 v2 : Value),
      instr.op = "/" ∨ instr.op = "%" →
      (instr.op = "%" → ∀ s, v1 ≠ .vstr s) →
      cfArgVal m instr.arg1 = some v1 →
      cfArgVal m instr.arg2 = some v2 →
      isZeroValue v2 = true →
      (cfStep m instr).1 = instr) ∧
    (∀ (st : InterpState) (instr : ThreeAddressCode) (l r : Value),
      instr.op = "/" ∨ instr.op = "%" →
      get_value st.vars instr.arg1 = .ok l →
      get_value st.vars instr.arg2 = .ok r →
      isZeroValue r = true →
      ∃ msg, execute_instruction st instr = .error (.runtime msg)) := by
  constructor
  · intro m instr v1 v2 hop hstr h1 h2 hz
    unfold cfStep
    rcases hop with hop | hop
    · simp only [hop, controlFlowOps, foldableBinOps, String.reduceEq,
        reduceIte, List.mem_cons, List.not_mem_nil, or_false, or_true,
        true_or, if_true, if_false, h1, h2,
        evaluate_operation_div_zero v1 v2 hz]
    · simp only [hop, controlFlowOps, foldableBinOps, String.reduceEq,
        reduceIte, List.mem_cons, List.not_mem_nil, or_false, or_true,
        true_or, if_true, if_false, h1, h2,
        evaluate_operation_mod_zero v1 v2 hz (hstr hop)]
  · intro st instr l r hop h1 h2 hz
    unfold execute_instruction
    rcases hop with hop | hop
    · refine ⟨"Division by zero", ?_⟩
      simp only [hop, String.reduceEq, reduceIte, List.mem_cons,
        List.not_mem_nil, or_false, or_true, true_or, if_true, if_false,
        h1, h2, bind, Except.bind]
      unfold interpArith
      simp only [String.reduceEq, reduceIte, hz, if_true]
    · refine ⟨"Modulo by zero", ?_⟩
      simp only [hop, String.reduceEq, reduceIte, List.mem_cons,
        List.not_mem_nil, or_false, or_true, true_or, if_true, if_false,
        h1, h2, bind, Except.bind]
      unfold interpArith
      simp only [String.reduceEq, reduceIte, hz, if_true]

/-- C4 witness: a `/` with operands `5` and `0` is kept by the folding
pass, and a `%` of `7` by `0` raises at run time. -/
theorem C4_division_by_zero_guarded_witness :
    (cfStep ConstMap.empty ⟨"/", .ostr "5", .ostr "0", some "t0"⟩).1 =
      ⟨"/", .ostr "5", .ostr "0", some "t0"⟩ ∧
    ∃ msg, execute_instruction emptyState ⟨"%", .oint 7, .oint 0, some "t0"⟩ =
      .error (.runtime msg) := by
  constructor
  · exact C4_division_by_zero_guarded.1 ConstMap.empty
      ⟨"/", .ostr "5", .ostr "0", some "t0"⟩ (.vint 5) (.vint 0)
      (Or.inl rfl) (fun h => absurd h (by decide))
      (by decide) (by decide) (by decide)
  · exact C4_division_by_zero_guarded.2 emptyState
      ⟨"%", .oint 7, .oint 0, some "t0"⟩ (.vint 7) (.vint 0)
      (Or.inr rfl) (by decide) (by decide) (by decide)

/-- C5 counterexample: the claim says a unary `-` instruction with a
constant operand is folded to `assign t0 = -5`; in the source the binary
branch (whose operator list contains `-`) captures it first and, with
`arg2` absent, emits the instruction unchanged. -/
theorem C5_unary_minus_not_folded :
    constant_folding [⟨"-", .ostr "5", .onone, some "t0"⟩] =
      [⟨"-", .ostr "5", .onone, some "t0"⟩] ∧
    constant_folding [⟨"-", .ostr "5", .onone, some "t0"⟩] ≠
      [⟨"assign", .oint (-5), .onone, some "t0"⟩] := by
  decide

/-- C5 (amended): only `not` instructions are folded by the unary branch —
a `not` whose operand is a constant (literal or via the table) becomes
`assign result = v` with `v` the boolean negation, recorded in the table;
a `-` instruction with `arg2` absent (and no constant recorded under the
`None` key, which no real IR produces) is always emitted unchanged. -/
theorem C5_only_not_folds :
    (∀ (m : ConstMap) (instr : ThreeAddressCode) (v : Value),
      instr.op = "not" →
      cfArgVal m instr.arg1 = some v →
      cfStep m instr =
        (⟨"assign", valueToOperand (.vbool (! pyTruthy v)), .onone,
            instr.result⟩,
          m.insert instr.result (.vbool (! pyTruthy v)))) ∧
    (∀ (m : ConstMap) (instr : ThreeAddressCode),
      instr.op = "-" → instr.arg2 = .onone → m.get none = none →
      (cfStep m instr).1 = instr) := by
  constructor
  · intro m instr v hop h1
    unfold cfStep
    rw [hop]
    simp only [controlFlowOps, foldableBinOps, String.reduceEq, reduceIte,
      List.mem_cons, List.not_mem_nil, or_false, or_true, true_or, if_true,
      if_false]
    rw [h1]
  · intro m instr hop harg2 hm
    unfold cfStep
    rw [hop]
    simp only [controlFlowOps, foldableBinOps, String.reduceEq, reduceIte,
      List.mem_cons, List.not_mem_nil, or_false, or_true, true_or, if_true,
      if_false]
    have h2 : cfArgVal m instr.arg2 = none := by
      rw [harg2]
      simp [cfArgVal, ConstMap.find, hm, is_constant]
    rw [h2]
    cases cfArgVal m instr.arg1 <;> rfl

/-- C5 witness: `not 0` folds to `assign t0 = True`; `- 5` (unary) stays. -/
theorem C5_only_not_folds_witness :
    cfStep ConstMap.empty ⟨"not", .ostr "0", .onone, some "t0"⟩ =
      (⟨"assign", .obool true, .onone, some "t0"⟩,
        ConstMap.empty.insert (some "t0") (.vbool true)) ∧
    (cfStep ConstMap.empty ⟨"-", .ostr "5", .onone, some "t0"⟩).1 =
      ⟨"-", .ostr "5", .onone, some "t0"⟩ := by
  constructor
  · exact C5_only_not_folds.1 ConstMap.empty
      ⟨"not", .ostr "0", .onone, some "t0"⟩ (.vint 0) rfl (by decide)
  · exact C5_only_not_folds.2 ConstMap.empty
      ⟨"-", .ostr "5", .onone, some "t0"⟩ rfl rfl rfl

/-- A fold whose body either appends the element or keeps the accumulator
is a filter. -/
theorem foldl_keep_eq_filter {α : Type} (p : α → Bool)
    (f : List α → α → List α)
    (hf : ∀ acc i, f acc i = if p i then acc ++ [i] else acc) :
    ∀ (l : List α) (acc : List α), l.foldl f acc = acc ++ l.filter p := by
  intro l
  induction l with
  | nil => intro acc; simp
  | cons x xs ih =>
    intro acc
    rw [List.foldl_cons, hf, List.filter_cons]
    by_cases hp : p x
    · simp [hp, ih]
    · simp [hp, ih]

/-- C8 counterexample: `param_decl` is outside the keep list and is not an
assignment with a kept result, so the claim's "drops all remaining
instructions" would delete it; dead-code elimination keeps it (the final
`else` of the second pass keeps every instruction whose `result` is
absent). -/
theorem C8_param_decl_survives_dce :
    dead_code_elimination [⟨"param_decl", .ostr "n", .onone, none⟩] =
      [⟨"param_decl", .ostr "n", .onone, none⟩] ∧
    dead_code_elimination [⟨"param_decl", .ostr "n", .onone, none⟩] ≠ [] := by
  decide

/-- C8 (amended): dead-code elimination keeps every instruction in the
keep list (`label goto if_false if_true begin_func end_func print return
call param`), keeps every instruction whose `result` is absent or empty
(e.g. `param_decl`), and of the rest keeps exactly those whose result is
in the used set or does not start with `t` — i.e. it drops exactly the
instructions outside the keep list whose non-empty result is an unused
name starting with `t`. -/
theorem C8_dce_is_a_filter (code : List ThreeAddressCode) :
    dead_code_elimination code = code.filter (fun i =>
      decide (i.op ∈ dceKeepOps) ||
      ! strOptTruthy i.result ||
      (match i.result with
       | some r => decide (r ∈ usedVars code ∨ ¬ pyStartsWith r "t")
       | none => false)) := by
  unfold dead_code_elimination
  have h := foldl_keep_eq_filter
    (p := fun i =>
      decide (i.op ∈ dceKeepOps) ||
      ! strOptTruthy i.result ||
      (match i.result with
       | some r => decide (r ∈ usedVars code ∨ ¬ pyStartsWith r "t")
       | none => false))
    (f := fun acc i =>
      if i.op ∈ dceKeepOps then acc ++ [i]
      else if strOptTruthy i.result then
        match i.result with
        | some r =>
          if r ∈ usedVars code ∨ ¬ pyStartsWith r "t" then acc ++ [i]
          else acc
        | none => acc
      else acc ++ [i])
    ?_ code []
  · simpa using h
  · intro acc i
    by_cases h1 : i.op ∈ dceKeepOps
    · simp [h1]
    · rcases hres : i.result with _ | r
      · simp [h1, hres, strOptTruthy]
      · by_cases h2 : r = ""
        · simp [h1, hres, h2, strOptTruthy]
        · by_cases h3 : r ∈ usedVars code ∨ ¬ pyStartsWith r "t"
          · simp [h1, hres, h2, h3, strOptTruthy]
          · simp [h1, hres, h2, h3, strOptTruthy]

/-- C7: `define` fails with the redeclaration error iff the name is
already present in the current (innermost) scope's dict; a name bound
only in an enclosing scope can be redefined, and the new binding shadows
the outer one under `lookup`; `lookup` resolves along the scope chain
toward the root. -/
theorem C7_scope_rules :
    (∀ (t : SymbolTable) (name st dt : String),
      (∃ e, t.define name st dt = .error e) ↔
        (symsGet t.symbols name).isSome = true) ∧
    (∀ (syms : List (String × SymInfo)) (p : SymbolTable)
        (name st dt : String),
      symsGet syms name = none →
      ∃ t2, (SymbolTable.child syms p).define name st dt = .ok t2 ∧
        t2.lookup name = some ⟨st, dt⟩) ∧
    (∀ (syms : List (String × SymInfo)) (p : SymbolTable)
        (name : String) (i : SymInfo),
      symsGet syms name = some i →
      (SymbolTable.child syms p).lookup name = some i) ∧
    (∀ (syms : List (String × SymInfo)) (p : SymbolTable) (name : String),
      symsGet syms name = none →
      (SymbolTable.child syms p).lookup name = p.lookup name) := by
  refine ⟨?_, ?_, ?_, ?_⟩
  · intro t name st dt
    unfold SymbolTable.define
    constructor
    · rintro ⟨e, he⟩
      by_cases h : (symsGet t.symbols name).isSome = true
      · exact h
      · simp only [h, if_false] at he
        match t, he with
        | .root syms, he => simp at he
        | .child syms p, he => simp at he
    · intro h
      exact ⟨"Redeclaration of " ++ name ++ " in the same scope",
        by simp [h]⟩
  · intro syms p name st dt h
    refine ⟨.child ((name, ⟨st, dt⟩) :: syms) p, ?_, ?_⟩
    · unfold SymbolTable.define
      simp [SymbolTable.symbols, h]
    · simp [SymbolTable.lookup, symsGet, List.find?]
  · intro syms p name i h
    simp [SymbolTable.lookup, h]
  · intro syms p name h
    simp [SymbolTable.lookup, h]

/-- C7 witness: `y` declared twice in one scope fails; `x` bound `int` in
the outer scope only can be redeclared `float` in the inner scope, the
new binding shadowing the outer one, which `lookup` reached before. -/
theorem C7_scope_rules_witness :
    (∃ e, (SymbolTable.root [("y", ⟨"variable", "int"⟩)]).define
      "y" "variable" "int" = .error e) ∧
    (∃ t2, (SymbolTable.child []
        (.root [("x", ⟨"variable", "int"⟩)])).define
        "x" "variable" "float" = .ok t2 ∧
      t2.lookup "x" = some ⟨"variable", "float"⟩) ∧
    (SymbolTable.child []
        (.root [("x", ⟨"variable", "int"⟩)])).lookup "x" =
      some ⟨"variable", "int"⟩ := by
  refine ⟨?_, ?_, ?_⟩
  · exact (C7_scope_rules.1 (.root [("y", ⟨"variable", "int"⟩)])
      "y" "variable" "int").mpr (by decide)
  · exact C7_scope_rules.2.1 [] (.root [("x", ⟨"variable", "int"⟩)])
      "x" "variable" "float" (by decide)
  · rw [C7_scope_rules.2.2.2 [] (.root [("x", ⟨"variable", "int"⟩)])
      "x" (by decide)]
    exact rfl

/-- Decoding a well-formed string body terminated by a quote. -/
theorem loop_decode (items : List SItem) (hwf : wfItems items = true) :
    ∀ (rest : List Char) (line col sl sc : ℕ) (acc : List Char),
    read_string_loop (encodeItems items ++ '"' :: rest) line col acc sl sc =
      .tok ⟨acc ++ decodeItems items⟩ sl sc := by
  induction items with
  | nil =>
    intro rest line col sl sc acc
    simp [encodeItems, decodeItems, read_string_loop]
  | cons it rest' ih =>
    intro rest line col sl sc acc
    match it with
    | .plain c =>
      simp only [wfItems, Bool.and_eq_true, decide_eq_true_eq] at hwf
      obtain ⟨⟨hq, hb⟩, hwf2⟩ := hwf
      simp only [encodeItems, decodeItems, List.cons_append, read_string_loop,
        if_neg hq, if_neg hb]
      rw [ih hwf2]
      simp
    | .esc c =>
      simp only [wfItems] at hwf
      simp only [encodeItems, decodeItems, List.cons_append, read_string_loop]
      norm_num
      rw [ih hwf]
      simp [decodeEsc]

/-- Scanning a well-formed body with no closing quote hits end of input
inside the loop. -/
theorem loop_unterminated (items : List SItem) (hwf : wfItems items = true) :
    ∀ (line col sl sc : ℕ) (acc : List Char),
    ∃ l2 c2, read_string_loop (encodeItems items) line col acc sl sc =
      .lexError l2 c2 "Unterminated string literal" := by
  induction items with
  | nil =>
    intro line col sl sc acc
    exact ⟨line, col, rfl⟩
  | cons it rest' ih =>
    intro line col sl sc acc
    match it with
    | .plain c =>
      simp only [wfItems, Bool.and_eq_true, decide_eq_true_eq] at hwf
      obtain ⟨⟨hq, hb⟩, hwf2⟩ := hwf
      simp only [encodeItems, read_string_loop, if_neg hq, if_neg hb]
      exact ih hwf2 _ _ _ _ _
    | .esc c =>
      simp only [wfItems] at hwf
      simp only [encodeItems, read_string_loop]
      norm_num
      exact ih hwf _ _ _ _ _

/-- A body ending in a bare backslash reaches `string_value += None`. -/
theorem loop_trailing_backslash (items : List SItem)
    (hwf : wfItems items = true) :
    ∀ (line col sl sc : ℕ) (acc : List Char),
    read_string_loop (encodeItems items ++ ['\\']) line col acc sl sc =
      .hostError := by
  induction items with
  | nil =>
    intro line col sl sc acc
    rfl
  | cons it rest' ih =>
    intro line col sl sc acc
    match it with
    | .plain c =>
      simp only [wfItems, Bool.and_eq_true, decide_eq_true_eq] at hwf
      obtain ⟨⟨hq, hb⟩, hwf2⟩ := hwf
      simp only [encodeItems, List.cons_append, read_string_loop,
        if_neg hq, if_neg hb]
      exact ih hwf2 _ _ _ _ _
    | .esc c =>
      simp only [wfItems] at hwf
      simp only [encodeItems, List.cons_append, read_string_loop]
      norm_num
      exact ih hwf _ _ _ _ _

/-- C9 counterexample: the claim promises a lexical error (with line and
column) for *every* unterminated string; for the source `"a\` — end of
input immediately after a backslash — `read_string` instead crashes with
an uncaught host `TypeError` (`string_value += None`). -/
theorem C9_trailing_backslash_crashes :
    read_string ['"', 'a', '\\'] 1 1 = .hostError ∧
    read_string ['"', 'a', '\\'] 1 1 ≠
      .lexError 1 4 "Unterminated string literal" := by
  decide

/-- C9 (amended): `read_string` decodes `\n \t \\ \"` to the named
characters and any other escape to the literal following character, and
every unterminated string raises the lexical error carrying line and
column — except an input that ends with a bare backslash right after the
string body, which instead crashes with an uncaught host `TypeError`. -/
theorem C9_read_string_behaviour :
    (∀ (items : List SItem) (rest : List Char) (line col : ℕ),
      wfItems items = true →
      read_string ('"' :: (encodeItems items ++ '"' :: rest)) line col =
        .tok ⟨decodeItems items⟩ line col) ∧
    (∀ (items : List SItem) (line col : ℕ),
      wfItems items = true →
      ∃ l2 c2, read_string ('"' :: encodeItems items) line col =
        .lexError l2 c2 "Unterminated string literal") ∧
    (∀ (items : List SItem) (line col : ℕ),
      wfItems items = true →
      read_string ('"' :: (encodeItems items ++ ['\\'])) line col =
        .hostError) := by
  refine ⟨?_, ?_, ?_⟩
  · intro items rest line col hwf
    have h1 : read_string ('"' :: (encodeItems items ++ '"' :: rest))
        line col =
        read_string_loop (encodeItems items ++ '"' :: rest) line (col + 1)
          [] line col := rfl
    rw [h1, loop_decode items hwf]
    simp
  · intro items line col hwf
    have h1 : read_string ('"' :: encodeItems items) line col =
        read_string_loop (encodeItems items) line (col + 1) [] line col :=
      rfl
    rw [h1]
    exact loop_unterminated items hwf _ _ _ _ _
  · intro items line col hwf
    have h1 : read_string ('"' :: (encodeItems items ++ ['\\'])) line col =
        read_string_loop (encodeItems items ++ ['\\']) line (col + 1)
          [] line col := rfl
    rw [h1]
    exact loop_trailing_backslash items hwf _ _ _ _ _

/-- C9 witness: `"a\n"` lexes to the two-character string `a`-newline
with the token anchored at the opening quote; `"a` is unterminated. -/
theorem C9_read_string_behaviour_witness :
    read_string ['"', 'a', '\\', 'n', '"'] 1 1 =
      .tok ⟨['a', '\n']⟩ 1 1 ∧
    ∃ l2 c2, read_string ['"', 'a'] 1 1 =
      .lexError l2 c2 "Unterminated string literal" := by
  constructor
  · exact C9_read_string_behaviour.1 [.plain 'a', .esc 'n'] [] 1 1
      (by decide)
  · exact C9_read_string_behaviour.2.1 [.plain 'a'] 1 1 (by decide)

/-- C10: executing `array_append` whose result name is unbound silently
creates a fresh one-element array under that name instead of raising an
undefined-variable error. -/
theorem C10_array_append_autovivifies (st : InterpState)
    (instr : ThreeAddressCode) (r : String) (v : Value)
    (hop : instr.op = "array_append")
    (hres : instr.result = some r)
    (hunbound : st.vars.find (some r) = none)
    (hval : get_value st.vars instr.arg1 = .ok v) :
    execute_instruction st instr =
      .ok { st with vars := st.vars.insert (some r) (.vlist [v]) } := by
  unfold execute_instruction
  rw [hop]
  simp only [String.reduceEq, reduceIte, List.mem_cons, List.not_mem_nil,
    or_false, reduceCtorEq, if_false, if_true]
  rw [hval, hres, hunbound]
  rfl

/-- C10 witness at a concrete state. -/
theorem C10_array_append_autovivifies_witness :
    execute_instruction emptyState ⟨"array_append", .ostr "7", .onone, some "a"⟩ =
      .ok { emptyState with
            vars := emptyState.vars.insert (some "a") (.vlist [.vint 7]) } :=
  C10_array_append_autovivifies emptyState
    ⟨"array_append", .ostr "7", .onone, some "a"⟩ "a" (.vint 7)
    rfl rfl rfl (by decide)


theorem labCount_append (a b : List ThreeAddressCode) (n : String) :
    labCount (a ++ b) n = labCount a n + labCount b n :=
  List.countP_append _ _ _

theorem jmpCount_append (a b : List ThreeAddressCode) (n : String) :
    jmpCount (a ++ b) n = jmpCount a n + jmpCount b n :=
  List.countP_append _ _ _

theorem mkLabel_injective : Function.Injective mkLabel := by
  intro i j h
  apply natStr_injective
  have hd : ("L" ++ natStr i).data = ("L" ++ natStr j).data :=
    congrArg String.data h
  rw [String.data_append, String.data_append] at hd
  have hdata : (natStr i).data = (natStr j).data := by
    simpa using hd
  exact congrArg String.mk hdata

theorem noCF_labCount (Δ : List ThreeAddressCode) (h : noCF Δ) (n : String) :
    labCount Δ n = 0 := by
  rw [labCount, List.countP_eq_zero]
  intro i hi
  have := (h i hi).1
  simp [this]

theorem noCF_jmpCount (Δ : List ThreeAddressCode) (h : noCF Δ) (n : String) :
    jmpCount Δ n = 0 := by
  rw [jmpCount, List.countP_eq_zero]
  intro i hi
  obtain ⟨h1, h2, h3, h4⟩ := h i hi
  simp [h2, h3, h4]

theorem SegOK_of_noCF (a b : ℕ) (Δ : List ThreeAddressCode) (h : noCF Δ) :
    SegOK a b Δ := by
  refine ⟨?_, ?_, ?_⟩
  · intro name hn
    rcases hn with hn | hn
    · exact absurd (noCF_labCount Δ h name) hn
    · exact absurd (noCF_jmpCount Δ h name) hn
  · intro name
    rw [noCF_labCount Δ h name]
    omega
  · intro name hn
    rw [noCF_jmpCount Δ h name] at hn
    omega

theorem SegOK.mono (a b a2 b2 : ℕ) (Δ : List ThreeAddressCode)
    (h : SegOK a b Δ) (ha : a2 ≤ a) (hb : b ≤ b2) : SegOK a2 b2 Δ := by
  obtain ⟨hr, hu, hj⟩ := h
  refine ⟨?_, hu, hj⟩
  intro name hn
  obtain ⟨i, h1, h2, h3⟩ := hr name hn
  exact ⟨i, by omega, by omega, h3⟩

/-- Names used in a segment whose range misses an index are not that
index's label. -/
theorem SegOK.count_zero (a b : ℕ) (Δ : List ThreeAddressCode)
    (h : SegOK a b Δ) (k : ℕ) (hk : k < a ∨ b ≤ k) :
    labCount Δ (mkLabel k) = 0 ∧ jmpCount Δ (mkLabel k) = 0 := by
  by_contra hc
  push_neg at hc
  have hex : labCount Δ (mkLabel k) ≠ 0 ∨ jmpCount Δ (mkLabel k) ≠ 0 := by
    by_cases h1 : labCount Δ (mkLabel k) = 0
    · exact Or.inr (hc h1)
    · exact Or.inl h1
  obtain ⟨i, hi1, hi2, hi3⟩ := h.1 _ hex
  have := mkLabel_injective hi3.symm
  omega

theorem SegOK.append (a b c : ℕ) (Δ₁ Δ₂ : List ThreeAddressCode)
    (h1 : SegOK a b Δ₁) (h2 : SegOK b c Δ₂) (hab : a ≤ b) (hbc : b ≤ c) :
    SegOK a c (Δ₁ ++ Δ₂) := by
  obtain ⟨r1, u1, j1⟩ := h1
  obtain ⟨r2, u2, j2⟩ := h2
  refine ⟨?_, ?_, ?_⟩
  · intro name hn
    rw [labCount_append, jmpCount_append] at hn
    by_cases hn1 : labCount Δ₁ name ≠ 0 ∨ jmpCount Δ₁ name ≠ 0
    · obtain ⟨i, hi1, hi2, hi3⟩ := r1 name hn1
      exact ⟨i, hi1, by omega, hi3⟩
    · push_neg at hn1
      have hn2 : labCount Δ₂ name ≠ 0 ∨ jmpCount Δ₂ name ≠ 0 := by
        rcases hn with hn | hn <;> omega
      obtain ⟨i, hi1, hi2, hi3⟩ := r2 name hn2
      exact ⟨i, by omega, hi2, hi3⟩
  · intro name
    rw [labCount_append]
    by_cases hz1 : labCount Δ₁ name = 0
    · rw [hz1]; simpa using u2 name
    · -- the name is a label of Δ₁, hence mkLabel i with i < b: Δ₂ has none
      have hex : labCount Δ₁ name ≠ 0 ∨ jmpCount Δ₁ name ≠ 0 := Or.inl hz1
      obtain ⟨i, hi1, hi2, hi3⟩ := r1 name hex
      have hz2 := (SegOK.count_zero b c Δ₂ ⟨r2, u2, j2⟩ i (Or.inl hi2)).1
      rw [hi3, hz2]
      simpa [hi3] using u1 name
  · intro name hn
    rw [jmpCount_append] at hn
    rw [labCount_append]
    by_cases hj1 : 0 < jmpCount Δ₁ name
    · have hex : labCount Δ₁ name ≠ 0 ∨ jmpCount Δ₁ name ≠ 0 :=
        Or.inr (by omega)
      obtain ⟨i, hi1, hi2, hi3⟩ := r1 name hex
      have hz2 := (SegOK.count_zero b c Δ₂ ⟨r2, u2, j2⟩ i (Or.inl hi2)).1
      rw [hi3, hz2]
      have := j1 name (by omega)
      rw [← hi3]
      omega
    · have hj2 : 0 < jmpCount Δ₂ name := by omega
      have hex : labCount Δ₂ name ≠ 0 ∨ jmpCount Δ₂ name ≠ 0 :=
        Or.inr (by omega)
      obtain ⟨i, hi1, hi2, hi3⟩ := r2 name hex
      have hz1 := (SegOK.count_zero a b Δ₁ ⟨r1, u1, j1⟩ i (Or.inr hi1)).1
      rw [hi3, hz1]
      have := j2 name hj2
      rw [← hi3]
      omega


theorem beq_some_false (nm n : String) (h : ¬ n = nm) :
    ((some nm : Option String) == some n) = false := by
  simp only [beq_eq_false_iff_ne, ne_eq, Option.some.injEq]
  exact fun he => h he.symm

theorem labCount_single_label (nm n : String) :
    labCount [⟨"label", .onone, .onone, some nm⟩] n =
      if n = nm then 1 else 0 := by
  simp only [labCount, List.countP_cons, List.countP_nil, Nat.zero_add]
  by_cases h : n = nm
  · subst h
    simp
  · rw [beq_some_false nm n h]
    simp [h]

theorem labCount_single_other (i : ThreeAddressCode) (h : i.op ≠ "label")
    (n : String) : labCount [i] n = 0 := by
  have hb : (i.op == "label") = false := by
    simp only [beq_eq_false_iff_ne]
    exact h
  simp [labCount, List.countP_cons, hb]

theorem jmpCount_single_jump (op2 : String) (a1 : Operand) (nm n : String)
    (h : op2 = "goto" ∨ op2 = "if_false" ∨ op2 = "if_true") :
    jmpCount [⟨op2, a1, .onone, some nm⟩] n = if n = nm then 1 else 0 := by
  simp only [jmpCount, List.countP_cons, List.countP_nil, Nat.zero_add]
  have hop : ((op2 == "goto" || op2 == "if_false" || op2 == "if_true")) =
      true := by
    rcases h with h | h | h <;> subst h <;> decide
  by_cases h2 : n = nm
  · subst h2
    simp [hop]
  · rw [beq_some_false nm n h2]
    simp [h2]

theorem jmpCount_single_other (i : ThreeAddressCode)
    (h : i.op ≠ "goto" ∧ i.op ≠ "if_false" ∧ i.op ≠ "if_true")
    (n : String) : jmpCount [i] n = 0 := by
  have h1 : (i.op == "goto") = false := by
    simp only [beq_eq_false_iff_ne]; exact h.1
  have h2 : (i.op == "if_false") = false := by
    simp only [beq_eq_false_iff_ne]; exact h.2.1
  have h3 : (i.op == "if_true") = false := by
    simp only [beq_eq_false_iff_ne]; exact h.2.2
  simp [jmpCount, List.countP_cons, h1, h2, h3]

/-- The generic loop/branch shape: a segment whose label and jump counts
are those of an inner segment `Δm` plus exactly one `label`/jump pair for
`L a` and `k ≤ 1` pairs for `L (a+1)` satisfies the invariant. -/
theorem SegOK_two_labels (a b k : ℕ) (Δ Δm : List ThreeAddressCode)
    (hm : SegOK (a + 2) b Δm) (hab : a + 2 ≤ b) (hk : k ≤ 1)
    (hlab : ∀ name, labCount Δ name =
      labCount Δm name + (if name = mkLabel a then 1 else 0) +
        (if name = mkLabel (a + 1) then k else 0))
    (hjmp : ∀ name, jmpCount Δ name =
      jmpCount Δm name + (if name = mkLabel a then 1 else 0) +
        (if name = mkLabel (a + 1) then k else 0)) :
    SegOK a b Δ := by
  have hne : mkLabel a ≠ mkLabel (a + 1) := by
    intro h
    have := mkLabel_injective h
    omega
  have hz0 := SegOK.count_zero (a + 2) b Δm hm a (Or.inl (by omega))
  have hz1 := SegOK.count_zero (a + 2) b Δm hm (a + 1) (Or.inl (by omega))
  refine ⟨?_, ?_, ?_⟩
  · intro name hn
    by_cases h0 : name = mkLabel a
    · exact ⟨a, le_refl a, by omega, h0⟩
    · by_cases h1 : name = mkLabel (a + 1)
      · exact ⟨a + 1, by omega, by omega, h1⟩
      · have hL := hlab name
        have hJ := hjmp name
        rw [if_neg h0, if_neg h1] at hL hJ
        have hn2 : labCount Δm name ≠ 0 ∨ jmpCount Δm name ≠ 0 := by
          rcases hn with hn | hn
          · left; omega
          · right; omega
        obtain ⟨i, hi1, hi2, hi3⟩ := hm.1 name hn2
        exact ⟨i, by omega, hi2, hi3⟩
  · intro name
    by_cases h0 : name = mkLabel a
    · subst h0
      have hL := hlab (mkLabel a)
      rw [if_pos rfl, if_neg hne, hz0.1] at hL
      omega
    · by_cases h1 : name = mkLabel (a + 1)
      · subst h1
        have hL := hlab (mkLabel (a + 1))
        rw [if_neg h0, if_pos rfl, hz1.1] at hL
        omega
      · have hL := hlab name
        rw [if_neg h0, if_neg h1] at hL
        have := hm.2.1 name
        omega
  · intro name hn
    by_cases h0 : name = mkLabel a
    · subst h0
      have hL := hlab (mkLabel a)
      rw [if_pos rfl, if_neg hne, hz0.1] at hL
      omega
    · by_cases h1 : name = mkLabel (a + 1)
      · subst h1
        have hL := hlab (mkLabel (a + 1))
        have hJ := hjmp (mkLabel (a + 1))
        rw [if_neg h0, if_pos rfl, hz1.1] at hL
        rw [if_neg h0, if_pos rfl, hz1.2] at hJ
        rw [hJ] at hn
        omega
      · have hL := hlab name
        have hJ := hjmp name
        rw [if_neg h0, if_neg h1] at hL hJ
        rw [hJ] at hn
        have := hm.2.2 name (by omega)
        omega


theorem noCF_nil : noCF [] := by
  intro i hi
  simp at hi

theorem noCF_append (a b : List ThreeAddressCode) (ha : noCF a)
    (hb : noCF b) : noCF (a ++ b) := by
  intro i hi
  rcases List.mem_append.mp hi with h | h
  · exact ha i h
  · exact hb i h

theorem parserBinOps_not_cf (op : String) (h : op ∈ parserBinOps) :
    op ≠ "label" ∧ op ≠ "goto" ∧ op ≠ "if_false" ∧ op ≠ "if_true" := by
  fin_cases h <;> exact ⟨by decide, by decide, by decide, by decide⟩

theorem ExprSpec.emitOp (s s2 : GenSt) (op : String) (a1 a2 : Operand)
    (r : Option String) (h : ExprSpec s s2)
    (hop : op ≠ "label" ∧ op ≠ "goto" ∧ op ≠ "if_false" ∧
      op ≠ "if_true") :
    ExprSpec s (s2.emit ⟨op, a1, a2, r⟩) := by
  obtain ⟨Δ, h1, h2, h3⟩ := h
  refine ⟨Δ ++ [⟨op, a1, a2, r⟩], by simp [GenSt.emit, h1],
    by simp [GenSt.emit, h2], ?_⟩
  intro i hi
  rcases List.mem_append.mp hi with hm | hm
  · exact h3 i hm
  · rw [List.mem_singleton] at hm
    subst hm
    exact hop

theorem ExprSpec.refl (s : GenSt) : ExprSpec s s :=
  ⟨[], by simp, rfl, noCF_nil⟩

theorem ExprSpec.trans (s s2 s3 : GenSt) (h1 : ExprSpec s s2)
    (h2 : ExprSpec s2 s3) : ExprSpec s s3 := by
  obtain ⟨Δ1, ha1, ha2, ha3⟩ := h1
  obtain ⟨Δ2, hb1, hb2, hb3⟩ := h2
  exact ⟨Δ1 ++ Δ2, by simp [hb1, ha1], by rw [hb2, ha2],
    noCF_append _ _ ha3 hb3⟩

theorem ExprSpec.bump (s : GenSt) (n : ℕ) :
    ExprSpec s { s with temp_count := n } :=
  ⟨[], by simp, rfl, noCF_nil⟩

mutual

theorem genExpr_spec : ∀ (e : Expr) (s : GenSt), wfExpr e = true →
    ExprSpec s (genExpr e s).1
  | .binOp op l r, s, hwf => by
    have hwf2 : (decide (op ∈ parserBinOps) && wfExpr l && wfExpr r) =
        true := hwf
    simp only [Bool.and_eq_true, decide_eq_true_eq] at hwf2
    obtain ⟨⟨hop, hwl⟩, hwr⟩ := hwf2
    have h1 : (genExpr (.binOp op l r) s).1 =
        GenSt.emit
          { (genExpr r (genExpr l s).1).1 with
            temp_count := (genExpr r (genExpr l s).1).1.temp_count + 1 }
          ⟨op, .ostr (genExpr l s).2, .ostr (genExpr r (genExpr l s).1).2,
            some (mkTemp (genExpr r (genExpr l s).1).1.temp_count)⟩ := rfl
    rw [h1]
    exact ExprSpec.emitOp _ _ _ _ _ _
      (ExprSpec.trans _ _ _
        (ExprSpec.trans _ _ _ (genExpr_spec l s hwl)
          (genExpr_spec r (genExpr l s).1 hwr))
        (ExprSpec.bump _ _))
      (parserBinOps_not_cf op hop)
  | .unaryOp op e, s, hwf => by
    have hwf2 : ((op == "-" || op == "not") && wfExpr e) = true := hwf
    simp only [Bool.and_eq_true, Bool.or_eq_true, beq_iff_eq] at hwf2
    obtain ⟨hop, hwe⟩ := hwf2
    have h1 : (genExpr (.unaryOp op e) s).1 =
        GenSt.emit
          { (genExpr e s).1 with
            temp_count := (genExpr e s).1.temp_count + 1 }
          ⟨op, .ostr (genExpr e s).2, .onone,
            some (mkTemp (genExpr e s).1.temp_count)⟩ := rfl
    rw [h1]
    refine ExprSpec.emitOp _ _ _ _ _ _
      (ExprSpec.trans _ _ _ (genExpr_spec e s hwe) (ExprSpec.bump _ _)) ?_
    rcases hop with hop | hop <;> subst hop <;>
      exact ⟨by decide, by decide, by decide, by decide⟩
  | .lit v, s, _ => by
    have h1 : (genExpr (.lit v) s).1 = s := rfl
    rw [h1]
    exact ExprSpec.refl s
  | .ident n, s, _ => by
    have h1 : (genExpr (.ident n) s).1 = s := rfl
    rw [h1]
    exact ExprSpec.refl s
  | .functionCall name args, s, hwf => by
    have hwf2 : wfExprList args = true := hwf
    have h1 : (genExpr (.functionCall name args) s).1 =
        GenSt.emit
          { genCallArgs args s with
            temp_count := (genCallArgs args s).temp_count + 1 }
          ⟨"call", .ostr name, .oint args.length,
            some (mkTemp (genCallArgs args s).temp_count)⟩ := rfl
    rw [h1]
    exact ExprSpec.emitOp _ _ _ _ _ _
      (ExprSpec.trans _ _ _ (genCallArgs_spec args s hwf2)
        (ExprSpec.bump _ _))
      (by decide)
  | .arrayLiteral es, s, hwf => by
    have hwf2 : wfExprList es = true := hwf
    have h1 : (genExpr (.arrayLiteral es) s).1 =
        genArrayElems es (mkTemp s.temp_count)
          (GenSt.emit { s with temp_count := s.temp_count + 1 }
            ⟨"array_init", .onone, .onone, some (mkTemp s.temp_count)⟩) :=
      rfl
    rw [h1]
    refine ExprSpec.trans _ _ _ ?_
      (genArrayElems_spec es (mkTemp s.temp_count) _ hwf2)
    exact ExprSpec.emitOp _ _ _ _ _ _ (ExprSpec.bump _ _) (by decide)
  | .arrayAccess a i, s, hwf => by
    have hwf2 : (wfExpr a && wfExpr i) = true := hwf
    simp only [Bool.and_eq_true] at hwf2
    obtain ⟨hwa, hwi⟩ := hwf2
    have h1 : (genExpr (.arrayAccess a i) s).1 =
        GenSt.emit
          { (genExpr i (genExpr a s).1).1 with
            temp_count := (genExpr i (genExpr a s).1).1.temp_count + 1 }
          ⟨"array_get", .ostr (genExpr a s).2,
            .ostr (genExpr i (genExpr a s).1).2,
            some (mkTemp (genExpr i (genExpr a s).1).1.temp_count)⟩ := rfl
    rw [h1]
    exact ExprSpec.emitOp _ _ _ _ _ _
      (ExprSpec.trans _ _ _
        (ExprSpec.trans _ _ _ (genExpr_spec a s hwa)
          (genExpr_spec i (genExpr a s).1 hwi))
        (ExprSpec.bump _ _))
      (by decide)
  | .builtInCall f [], s, _ => by
    have h1 : genExpr (.builtInCall f []) s =
        (if strToLower f = "len" then
           ({ s with temp_count := s.temp_count + 1 }, mkTemp s.temp_count)
         else if strToLower f = "random" then
           ({ s with temp_count := s.temp_count + 1 }, mkTemp s.temp_count)
         else if strToLower f = "substr" then
           ({ s with temp_count := s.temp_count + 1 }, mkTemp s.temp_count)
         else if strToLower f = "concat" then
           ({ s with temp_count := s.temp_count + 1 }, mkTemp s.temp_count)
         else if strToLower f = "input" then
           ({ s with temp_count := s.temp_count + 1 }, mkTemp s.temp_count)
         else
           ({ s with temp_count := s.temp_count + 1 },
             mkTemp s.temp_count)) := rfl
    rw [h1]
    split_ifs <;> exact ExprSpec.bump _ _
  | .builtInCall f [a], s, hwf => by
    have hwf2 : (wfExpr a && wfExprList []) = true := hwf
    simp only [Bool.and_eq_true] at hwf2
    have hwa := hwf2.1
    have h1 : genExpr (.builtInCall f [a]) s =
        (if strToLower f = "len" then
           ((genExpr a { s with temp_count := s.temp_count + 1 }).1.emit
             ⟨"builtin_len",
               .ostr (genExpr a
                 { s with temp_count := s.temp_count + 1 }).2,
               .onone, some (mkTemp s.temp_count)⟩, mkTemp s.temp_count)
         else if strToLower f = "random" then
           ({ s with temp_count := s.temp_count + 1 }, mkTemp s.temp_count)
         else if strToLower f = "substr" then
           ({ s with temp_count := s.temp_count + 1 }, mkTemp s.temp_count)
         else if strToLower f = "concat" then
           ({ s with temp_count := s.temp_count + 1 }, mkTemp s.temp_count)
         else if strToLower f = "input" then
           ((genExpr a { s with temp_count := s.temp_count + 1 }).1.emit
             ⟨"builtin_input",
               .ostr (genExpr a
                 { s with temp_count := s.temp_count + 1 }).2,
               .onone, some (mkTemp s.temp_count)⟩, mkTemp s.temp_count)
         else
           ({ s with temp_count := s.temp_count + 1 },
             mkTemp s.temp_count)) := rfl
    rw [h1]
    split_ifs <;>
      first
        | exact ExprSpec.bump _ _
        | exact ExprSpec.emitOp _ _ _ _ _ _
            (ExprSpec.trans _ _ _ (ExprSpec.bump _ _)
              (genExpr_spec a _ hwa)) (by decide)
  | .builtInCall f [a, b], s, hwf => by
    have hwf2 : (wfExpr a && (wfExpr b && wfExprList [])) = true := hwf
    simp only [Bool.and_eq_true] at hwf2
    obtain ⟨hwa, hwb, -⟩ := hwf2
    have h1 : genExpr (.builtInCall f [a, b]) s =
        (if strToLower f = "len" then
           ((genExpr a { s with temp_count := s.temp_count + 1 }).1.emit
             ⟨"builtin_len",
               .ostr (genExpr a
                 { s with temp_count := s.temp_count + 1 }).2,
               .onone, some (mkTemp s.temp_count)⟩, mkTemp s.temp_count)
         else if strToLower f = "random" then
           ((genExpr b (genExpr a
               { s with temp_count := s.temp_count + 1 }).1).1.emit
             ⟨"builtin_random",
               .ostr (genExpr a
                 { s with temp_count := s.temp_count + 1 }).2,
               .ostr (genExpr b (genExpr a
                 { s with temp_count := s.temp_count + 1 }).1).2,
               some (mkTemp s.temp_count)⟩, mkTemp s.temp_count)
         else if strToLower f = "substr" then
           ({ s with temp_count := s.temp_count + 1 }, mkTemp s.temp_count)
         else if strToLower f = "concat" then
           ((genExpr b (genExpr a
               { s with temp_count := s.temp_count + 1 }).1).1.emit
             ⟨"builtin_concat",
               .ostr (genExpr a
                 { s with temp_count := s.temp_count + 1 }).2,
               .ostr (genExpr b (genExpr a
                 { s with temp_count := s.temp_count + 1 }).1).2,
               some (mkTemp s.temp_count)⟩, mkTemp s.temp_count)
         else if strToLower f = "input" then
           ((genExpr a { s with temp_count := s.temp_count + 1 }).1.emit
             ⟨"builtin_input",
               .ostr (genExpr a
                 { s with temp_count := s.temp_count + 1 }).2,
               .onone, some (mkTemp s.temp_count)⟩, mkTemp s.temp_count)
         else
           ({ s with temp_count := s.temp_count + 1 },
             mkTemp s.temp_count)) := rfl
    rw [h1]
    split_ifs <;>
      first
        | exact ExprSpec.bump _ _
        | exact ExprSpec.emitOp _ _ _ _ _ _
            (ExprSpec.trans _ _ _ (ExprSpec.bump _ _)
              (genExpr_spec a _ hwa)) (by decide)
        | exact ExprSpec.emitOp _ _ _ _ _ _
            (ExprSpec.trans _ _ _
              (ExprSpec.trans _ _ _ (ExprSpec.bump _ _)
                (genExpr_spec a _ hwa))
              (genExpr_spec b _ hwb)) (by decide)
  | .builtInCall f (a :: b :: c :: rest), s, hwf => by
    have hwf2 : (wfExpr a && (wfExpr b && (wfExpr c &&
        wfExprList rest))) = true := hwf
    simp only [Bool.and_eq_true] at hwf2
    obtain ⟨hwa, hwb, hwc, -⟩ := hwf2
    have h1 : genExpr (.builtInCall f (a :: b :: c :: rest)) s =
        (if strToLower f = "len" then
           ((genExpr a { s with temp_count := s.temp_count + 1 }).1.emit
             ⟨"builtin_len",
               .ostr (genExpr a
                 { s with temp_count := s.temp_count + 1 }).2,
               .onone, some (mkTemp s.temp_count)⟩, mkTemp s.temp_count)
         else if strToLower f = "random" then
           ((genExpr b (genExpr a
               { s with temp_count := s.temp_count + 1 }).1).1.emit
             ⟨"builtin_random",
               .ostr (genExpr a
                 { s with temp_count := s.temp_count + 1 }).2,
               .ostr (genExpr b (genExpr a
                 { s with temp_count := s.temp_count + 1 }).1).2,
               some (mkTemp s.temp_count)⟩, mkTemp s.temp_count)
         else if strToLower f = "substr" then
           ((genExpr c (genExpr b (genExpr a
               { s with temp_count := s.temp_count + 1 }).1).1).1.emit
             ⟨"builtin_substr",
               .ostr (genExpr a
                 { s with temp_count := s.temp_count + 1 }).2,
               .opair (genExpr b (genExpr a
                 { s with temp_count := s.temp_count + 1 }).1).2
                 (genExpr c (genExpr b (genExpr a
                   { s with temp_count := s.temp_count + 1 }).1).1).2,
               some (mkTemp s.temp_count)⟩, mkTemp s.temp_count)
         else if strToLower f = "concat" then
           ((genExpr b (genExpr a
               { s with temp_count := s.temp_count + 1 }).1).1.emit
             ⟨"builtin_concat",
               .ostr (genExpr a
                 { s with temp_count := s.temp_count + 1 }).2,
               .ostr (genExpr b (genExpr a
                 { s with temp_count := s.temp_count + 1 }).1).2,
               some (mkTemp s.temp_count)⟩, mkTemp s.temp_count)
         else if strToLower f = "input" then
           ((genExpr a { s with temp_count := s.temp_count + 1 }).1.emit
             ⟨"builtin_input",
               .ostr (genExpr a
                 { s with temp_count := s.temp_count + 1 }).2,
               .onone, some (mkTemp s.temp_count)⟩, mkTemp s.temp_count)
         else
           ({ s with temp_count := s.temp_count + 1 },
             mkTemp s.temp_count)) := rfl
    rw [h1]
    split_ifs <;>
      first
        | exact ExprSpec.bump _ _
        | exact ExprSpec.emitOp _ _ _ _ _ _
            (ExprSpec.trans _ _ _ (ExprSpec.bump _ _)
              (genExpr_spec a _ hwa)) (by decide)
        | exact ExprSpec.emitOp _ _ _ _ _ _
            (ExprSpec.trans _ _ _
              (ExprSpec.trans _ _ _ (ExprSpec.bump _ _)
                (genExpr_spec a _ hwa))
              (genExpr_spec b _ hwb)) (by decide)
        | exact ExprSpec.emitOp _ _ _ _ _ _
            (ExprSpec.trans _ _ _
              (ExprSpec.trans _ _ _
                (ExprSpec.trans _ _ _ (ExprSpec.bump _ _)
                  (genExpr_spec a _ hwa))
                (genExpr_spec b _ hwb))
              (genExpr_spec c _ hwc)) (by decide)

theorem genCallArgs_spec : ∀ (args : List Expr) (s : GenSt),
    wfExprList args = true → ExprSpec s (genCallArgs args s)
  | [], s, _ => by
    have h1 : genCallArgs [] s = s := rfl
    rw [h1]
    exact ExprSpec.refl s
  | a :: rest, s, hwf => by
    have hw : (wfExpr a && wfExprList rest) = true := hwf
    simp only [Bool.and_eq_true] at hw
    have h1 : genCallArgs (a :: rest) s =
        genCallArgs rest
          ((genExpr a s).1.emit
            ⟨"param", .ostr (genExpr a s).2, .onone, none⟩) := rfl
    rw [h1]
    refine ExprSpec.trans _ _ _ ?_ (genCallArgs_spec rest _ hw.2)
    exact ExprSpec.emitOp _ _ _ _ _ _ (genExpr_spec a s hw.1) (by decide)

theorem genArrayElems_spec : ∀ (es : List Expr) (t : String) (s : GenSt),
    wfExprList es = true → ExprSpec s (genArrayElems es t s)
  | [], t, s, _ => by
    have h1 : genArrayElems [] t s = s := rfl
    rw [h1]
    exact ExprSpec.refl s
  | e :: rest, t, s, hwf => by
    have hw : (wfExpr e && wfExprList rest) = true := hwf
    simp only [Bool.and_eq_true] at hw
    have h1 : genArrayElems (e :: rest) t s =
        genArrayElems rest t
          ((genExpr e s).1.emit
            ⟨"array_append", .ostr (genExpr e s).2, .onone, some t⟩) := rfl
    rw [h1]
    refine ExprSpec.trans _ _ _ ?_ (genArrayElems_spec rest t _ hw.2)
    exact ExprSpec.emitOp _ _ _ _ _ _ (genExpr_spec e s hw.1) (by decide)

theorem genPrintExprs_spec : ∀ (es : List Expr) (s : GenSt),
    wfExprList es = true → ExprSpec s (genPrintExprs es s)
  | [], s, _ => by
    have h1 : genPrintExprs [] s = s := rfl
    rw [h1]
    exact ExprSpec.refl s
  | e :: rest, s, hwf => by
    have hw : (wfExpr e && wfExprList rest) = true := hwf
    simp only [Bool.and_eq_true] at hw
    have h1 : genPrintExprs (e :: rest) s =
        genPrintExprs rest
          ((genExpr e s).1.emit
            ⟨"print", .ostr (genExpr e s).2, .onone, none⟩) := rfl
    rw [h1]
    refine ExprSpec.trans _ _ _ ?_ (genPrintExprs_spec rest _ hw.2)
    exact ExprSpec.emitOp _ _ _ _ _ _ (genExpr_spec e s hw.1) (by decide)

end


theorem GenSt.emit_code (s : GenSt) (i : ThreeAddressCode) :
    (GenSt.emit s i).code = s.code ++ [i] := rfl

theorem GenSt.emit_lc (s : GenSt) (i : ThreeAddressCode) :
    (GenSt.emit s i).label_count = s.label_count := rfl

theorem labCount_single_ifFalse (a1 : Operand) (nm n : String) :
    labCount [⟨"if_false", a1, .onone, some nm⟩] n = 0 := by
  apply labCount_single_other
  intro hcon
  simp at hcon

theorem labCount_single_goto (nm n : String) :
    labCount [⟨"goto", .onone, .onone, some nm⟩] n = 0 := by
  apply labCount_single_other
  intro hcon
  simp at hcon

theorem jmpCount_single_ifFalse (a1 : Operand) (nm n : String) :
    jmpCount [⟨"if_false", a1, .onone, some nm⟩] n =
      if n = nm then 1 else 0 :=
  jmpCount_single_jump "if_false" a1 nm n (Or.inr (Or.inl rfl))

theorem jmpCount_single_goto (nm n : String) :
    jmpCount [⟨"goto", .onone, .onone, some nm⟩] n =
      if n = nm then 1 else 0 :=
  jmpCount_single_jump "goto" .onone nm n (Or.inl rfl)

theorem jmpCount_single_label (nm n : String) :
    jmpCount [⟨"label", .onone, .onone, some nm⟩] n = 0 := by
  apply jmpCount_single_other
  refine ⟨?_, ?_, ?_⟩ <;> intro hcon <;> simp at hcon

/-- The `if` without `else` shape: condition code, a conditional jump to
`L a`, the then-branch segment, and the `L a` label. -/
theorem SegOK_branch_none (a b : ℕ) (cArg : Operand)
    (Δc Δt : List ThreeAddressCode) (hc : noCF Δc)
    (ht : SegOK (a + 2) b Δt) (hab : a + 2 ≤ b) :
    SegOK a b (Δc ++ ([⟨"if_false", cArg, .onone, some (mkLabel a)⟩] ++
      (Δt ++ [⟨"label", .onone, .onone, some (mkLabel a)⟩]))) := by
  refine SegOK_two_labels a b 0 _ Δt ht hab (by omega) ?_ ?_ <;> intro name
  · simp only [labCount_append, noCF_labCount Δc hc,
      labCount_single_ifFalse, labCount_single_label, ite_self]
    omega
  · simp only [jmpCount_append, noCF_jmpCount Δc hc,
      jmpCount_single_ifFalse, jmpCount_single_label, ite_self]
    omega

/-- The `if`/`else` shape: condition code, conditional jump to `L a`,
then-branch, `goto L (a+1)`, label `L a`, else-branch, label `L (a+1)`. -/
theorem SegOK_branch_else (a m b : ℕ) (cArg : Operand)
    (Δc Δt Δe : List ThreeAddressCode) (hc : noCF Δc)
    (ht : SegOK (a + 2) m Δt) (he : SegOK m b Δe)
    (ham : a + 2 ≤ m) (hmb : m ≤ b) :
    SegOK a b (Δc ++ ([⟨"if_false", cArg, .onone, some (mkLabel a)⟩] ++
      (Δt ++ ([⟨"goto", .onone, .onone, some (mkLabel (a + 1))⟩] ++
        ([⟨"label", .onone, .onone, some (mkLabel a)⟩] ++
          (Δe ++ [⟨"label", .onone, .onone,
            some (mkLabel (a + 1))⟩])))))) := by
  refine SegOK_two_labels a b 1 _ (Δt ++ Δe)
    (SegOK.append _ _ _ _ _ ht he (by omega) hmb) (by omega) (by omega)
    ?_ ?_ <;> intro name
  · simp only [labCount_append, noCF_labCount Δc hc,
      labCount_single_ifFalse, labCount_single_goto,
      labCount_single_label]
    omega
  · simp only [jmpCount_append, noCF_jmpCount Δc hc,
      jmpCount_single_ifFalse, jmpCount_single_goto,
      jmpCount_single_label]
    omega

/-- The loop shape shared by `while` and `for`: label `L a`, condition
code, conditional jump to `L (a+1)`, the loop-interior segment, `goto L a`
and label `L (a+1)`. -/
theorem SegOK_loop (a b : ℕ) (cArg : Operand)
    (Δc Δm : List ThreeAddressCode) (hc : noCF Δc)
    (hm : SegOK (a + 2) b Δm) (hab : a + 2 ≤ b) :
    SegOK a b ([⟨"label", .onone, .onone, some (mkLabel a)⟩] ++
      (Δc ++ ([⟨"if_false", cArg, .onone, some (mkLabel (a + 1))⟩] ++
        (Δm ++ ([⟨"goto", .onone, .onone, some (mkLabel a)⟩] ++
          [⟨"label", .onone, .onone, some (mkLabel (a + 1))⟩]))))) := by
  refine SegOK_two_labels a b 1 _ Δm hm hab (by omega) ?_ ?_ <;> intro name
  · simp only [labCount_append, noCF_labCount Δc hc,
      labCount_single_ifFalse, labCount_single_goto,
      labCount_single_label]
    omega
  · simp only [jmpCount_append, noCF_jmpCount Δc hc,
      jmpCount_single_ifFalse, jmpCount_single_goto,
      jmpCount_single_label]
    omega

theorem StmtSpec_refl (s : GenSt) : StmtSpec s s :=
  ⟨le_refl _, [], by simp, SegOK_of_noCF _ _ _ noCF_nil⟩

theorem StmtSpec_trans (s s2 s3 : GenSt) (h1 : StmtSpec s s2)
    (h2 : StmtSpec s2 s3) : StmtSpec s s3 := by
  obtain ⟨hle1, Δ1, ha1, ha2⟩ := h1
  obtain ⟨hle2, Δ2, hb1, hb2⟩ := h2
  exact ⟨le_trans hle1 hle2, Δ1 ++ Δ2, by simp [hb1, ha1],
    SegOK.append _ _ _ _ _ ha2 hb2 hle1 hle2⟩

theorem StmtSpec.of_exprSpec (s s2 : GenSt) (h : ExprSpec s s2) :
    StmtSpec s s2 := by
  obtain ⟨Δ, h1, h2, h3⟩ := h
  exact ⟨le_of_eq h2.symm, Δ, h1, by
    rw [h2]
    exact SegOK_of_noCF _ _ _ h3⟩

theorem StmtSpec_emitOp (s s2 : GenSt) (op : String) (a1 a2 : Operand)
    (r : Option String) (h : StmtSpec s s2)
    (hop : op ≠ "label" ∧ op ≠ "goto" ∧ op ≠ "if_false" ∧
      op ≠ "if_true") :
    StmtSpec s (GenSt.emit s2 ⟨op, a1, a2, r⟩) :=
  StmtSpec_trans _ _ _ h
    (StmtSpec.of_exprSpec _ _
      (ExprSpec.emitOp _ _ _ _ _ _ (ExprSpec.refl s2) hop))

theorem foldl_paramDecl : ∀ (params : List (String × String)) (s : GenSt),
    ExprSpec s (params.foldl
      (fun acc p => GenSt.emit acc ⟨"param_decl", .ostr p.2, .onone, none⟩)
      s)
  | [], s => ExprSpec.refl s
  | p :: rest, s => by
    rw [List.foldl_cons]
    exact ExprSpec.trans _ _ _
      (ExprSpec.emitOp _ _ _ _ _ _ (ExprSpec.refl s) (by decide))
      (foldl_paramDecl rest _)


theorem GenSt.mk_lc (c : List ThreeAddressCode) (t l : ℕ) :
    (GenSt.mk c t l).label_count = l := rfl

theorem GenSt.mk_code (c : List ThreeAddressCode) (t l : ℕ) :
    (GenSt.mk c t l).code = c := rfl

/-- `generate_IfStatement` without an else block, phrased over the
intermediate generator states. -/
theorem StmtSpec_branch_none (s S4 T R : GenSt) (cond : GenSt × String)
    (hcond : ExprSpec s cond.1)
    (hS4 : S4 = GenSt.emit
      { cond.1 with label_count := cond.1.label_count + 1 + 1 }
      ⟨"if_false", .ostr cond.2, .onone,
        some (mkLabel cond.1.label_count)⟩)
    (hT : StmtSpec S4 T)
    (hR : R = GenSt.emit T
      ⟨"label", .onone, .onone, some (mkLabel cond.1.label_count)⟩) :
    StmtSpec s R := by
  obtain ⟨Δc, hc1, hc2, hc3⟩ := hcond
  obtain ⟨hTle, ΔT, hT1, hT2⟩ := hT
  subst hR hS4
  rw [hc2] at hT1 hT2 hTle ⊢
  rw [GenSt.emit_lc, GenSt.mk_lc] at hTle hT2
  refine ⟨?_, Δc ++ ([⟨"if_false", .ostr cond.2, .onone,
      some (mkLabel s.label_count)⟩] ++
    (ΔT ++ [⟨"label", .onone, .onone, some (mkLabel s.label_count)⟩])),
    ?_, ?_⟩
  · rw [GenSt.emit_lc]
    omega
  · rw [GenSt.emit_code, hT1, GenSt.emit_code, GenSt.mk_code, hc1]
    simp [List.append_assoc]
  · rw [GenSt.emit_lc]
    refine SegOK_branch_none _ _ _ _ _ hc3 ?_ ?_
    · exact SegOK.mono _ _ _ _ _ hT2 (by omega) (le_refl _)
    · omega

/-- `generate_IfStatement` with an else block, phrased over the
intermediate generator states. -/
theorem StmtSpec_branch_else (s S4 T E R : GenSt) (cond : GenSt × String)
    (hcond : ExprSpec s cond.1)
    (hS4 : S4 = GenSt.emit
      { cond.1 with label_count := cond.1.label_count + 1 + 1 }
      ⟨"if_false", .ostr cond.2, .onone,
        some (mkLabel cond.1.label_count)⟩)
    (hT : StmtSpec S4 T)
    (hE : StmtSpec
      (GenSt.emit
        (GenSt.emit T ⟨"goto", .onone, .onone,
          some (mkLabel (cond.1.label_count + 1))⟩)
        ⟨"label", .onone, .onone, some (mkLabel cond.1.label_count)⟩) E)
    (hR : R = GenSt.emit E
      ⟨"label", .onone, .onone,
        some (mkLabel (cond.1.label_count + 1))⟩) :
    StmtSpec s R := by
  obtain ⟨Δc, hc1, hc2, hc3⟩ := hcond
  obtain ⟨hTle, ΔT, hT1, hT2⟩ := hT
  obtain ⟨hEle, ΔE, hE1, hE2⟩ := hE
  subst hR hS4
  rw [hc2] at hT1 hT2 hTle hE1 hE2 hEle ⊢
  rw [GenSt.emit_lc, GenSt.mk_lc] at hTle hT2
  rw [GenSt.emit_lc, GenSt.emit_lc] at hEle hE2
  refine ⟨?_, Δc ++ ([⟨"if_false", .ostr cond.2, .onone,
      some (mkLabel s.label_count)⟩] ++
    (ΔT ++ ([⟨"goto", .onone, .onone,
        some (mkLabel (s.label_count + 1))⟩] ++
      ([⟨"label", .onone, .onone, some (mkLabel s.label_count)⟩] ++
        (ΔE ++ [⟨"label", .onone, .onone,
          some (mkLabel (s.label_count + 1))⟩]))))), ?_, ?_⟩
  · rw [GenSt.emit_lc]
    omega
  · rw [GenSt.emit_code, hE1, GenSt.emit_code, GenSt.emit_code, hT1,
      GenSt.emit_code, GenSt.mk_code, hc1]
    simp [List.append_assoc]
  · rw [GenSt.emit_lc]
    exact SegOK_branch_else s.label_count T.label_count E.label_count
      _ _ _ _ hc3 (SegOK.mono _ _ _ _ _ hT2 (by omega) (le_refl _))
      hE2 (by omega) hEle

/-- The loop emission shared by `generate_WhileStatement` and the back
half of `generate_ForStatement`, phrased over the intermediate generator
states. -/
theorem StmtSpec_loop (s S3 S4 U R : GenSt) (cond : GenSt × String)
    (hS3code : S3.code = s.code ++
      [⟨"label", .onone, .onone, some (mkLabel s.label_count)⟩])
    (hS3lc : S3.label_count = s.label_count + 2)
    (hcond : ExprSpec S3 cond.1)
    (hS4 : S4 = GenSt.emit cond.1
      ⟨"if_false", .ostr cond.2, .onone,
        some (mkLabel (s.label_count + 1))⟩)
    (hU : StmtSpec S4 U)
    (hR : R = GenSt.emit
      (GenSt.emit U ⟨"goto", .onone, .onone, some (mkLabel s.label_count)⟩)
      ⟨"label", .onone, .onone, some (mkLabel (s.label_count + 1))⟩) :
    StmtSpec s R := by
  obtain ⟨Δc, hc1, hc2, hc3⟩ := hcond
  obtain ⟨hUle, ΔU, hU1, hU2⟩ := hU
  subst hR hS4
  rw [GenSt.emit_lc] at hUle hU2
  refine ⟨?_, [⟨"label", .onone, .onone, some (mkLabel s.label_count)⟩] ++
    (Δc ++ ([⟨"if_false", .ostr cond.2, .onone,
        some (mkLabel (s.label_count + 1))⟩] ++
      (ΔU ++ ([⟨"goto", .onone, .onone, some (mkLabel s.label_count)⟩] ++
        [⟨"label", .onone, .onone,
          some (mkLabel (s.label_count + 1))⟩])))), ?_, ?_⟩
  · rw [GenSt.emit_lc, GenSt.emit_lc]
    omega
  · rw [GenSt.emit_code, GenSt.emit_code, hU1, GenSt.emit_code, hc1,
      hS3code]
    simp [List.append_assoc]
  · rw [GenSt.emit_lc, GenSt.emit_lc]
    refine SegOK_loop _ _ _ _ _ hc3 ?_ ?_
    · refine SegOK.mono _ _ _ _ _ hU2 ?_ (le_refl _)
      omega
    · omega

mutual

theorem genStmt_seg : ∀ (st : Stmt) (s : GenSt), wfStmt st = true →
    StmtSpec s (genStmt st s)
  | .varDeclaration ty nm (some e), s, hwf => by
    have hwe : wfExpr e = true := hwf
    rw [show genStmt (.varDeclaration ty nm (some e)) s =
        GenSt.emit (genExpr e s).1
          ⟨"assign", .ostr (genExpr e s).2, .onone, some nm⟩ from rfl]
    exact StmtSpec_emitOp _ _ _ _ _ _
      (StmtSpec.of_exprSpec _ _ (genExpr_spec e s hwe)) (by decide)
  | .varDeclaration ty nm none, s, _ => by
    rw [show genStmt (.varDeclaration ty nm none) s = s from rfl]
    exact StmtSpec_refl s
  | .assignment nm e, s, hwf => by
    have hwe : wfExpr e = true := hwf
    rw [show genStmt (.assignment nm e) s =
        GenSt.emit (genExpr e s).1
          ⟨"assign", .ostr (genExpr e s).2, .onone, some nm⟩ from rfl]
    exact StmtSpec_emitOp _ _ _ _ _ _
      (StmtSpec.of_exprSpec _ _ (genExpr_spec e s hwe)) (by decide)
  | .ifStatement c tb none, s, hwf => by
    have hwf2 : (wfExpr c && wfStmtList tb && true) = true := hwf
    simp only [Bool.and_true, Bool.and_eq_true] at hwf2
    exact StmtSpec_branch_none s _ _ _ (genExpr c s)
      (genExpr_spec c s hwf2.1) rfl
      (genStmts_seg tb _ hwf2.2) rfl
  | .ifStatement c tb (some els), s, hwf => by
    have hwf2 : (wfExpr c && wfStmtList tb && wfStmtList els) = true :=
      hwf
    simp only [Bool.and_eq_true] at hwf2
    exact StmtSpec_branch_else s _ _ _ _ (genExpr c s)
      (genExpr_spec c s hwf2.1.1) rfl
      (genStmts_seg tb _ hwf2.1.2)
      (genStmts_seg els _ hwf2.2) rfl
  | .whileStatement c body, s, hwf => by
    have hwf2 : (wfExpr c && wfStmtList body) = true := hwf
    simp only [Bool.and_eq_true] at hwf2
    exact StmtSpec_loop s _ _ _ _
      (genExpr c (GenSt.emit
        { s with label_count := s.label_count + 1 + 1 }
        ⟨"label", .onone, .onone, some (mkLabel s.label_count)⟩))
      rfl rfl (genExpr_spec c _ hwf2.1) rfl
      (genStmts_seg body _ hwf2.2) rfl
  | .forStatement init c update body, s, hwf => by
    have hwf2 : (wfStmt init && wfExpr c && wfStmt update &&
        wfStmtList body) = true := hwf
    simp only [Bool.and_eq_true] at hwf2
    refine StmtSpec_trans _ _ _ (genStmt_seg init s hwf2.1.1.1) ?_
    exact StmtSpec_loop (genStmt init s) _ _ _ _
      (genExpr c (GenSt.emit
        { genStmt init s with
          label_count := (genStmt init s).label_count + 1 + 1 }
        ⟨"label", .onone, .onone,
          some (mkLabel (genStmt init s).label_count)⟩))
      rfl rfl (genExpr_spec c _ hwf2.1.1.2) rfl
      (StmtSpec_trans _ _ _ (genStmts_seg body _ hwf2.2)
        (genStmt_seg update _ hwf2.1.2)) rfl
  | .functionDef rt nm params body, s, hwf => by
    have hwb : wfStmtList body = true := hwf
    rw [show genStmt (.functionDef rt nm params body) s =
        GenSt.emit
          (genStmts body
            (params.foldl
              (fun acc p =>
                GenSt.emit acc ⟨"param_decl", .ostr p.2, .onone, none⟩)
              (GenSt.emit s ⟨"begin_func", .ostr nm, .onone, none⟩)))
          ⟨"end_func", .ostr nm, .onone, none⟩ from rfl]
    exact StmtSpec_emitOp _ _ _ _ _ _
      (StmtSpec_trans _ _ _
        (StmtSpec.of_exprSpec _ _
          (ExprSpec.trans _ _ _
            (ExprSpec.emitOp _ _ _ _ _ _ (ExprSpec.refl s) (by decide))
            (foldl_paramDecl params _)))
        (genStmts_seg body _ hwb)) (by decide)
  | .returnStatement (some e), s, hwf => by
    have hwe : wfExpr e = true := hwf
    rw [show genStmt (.returnStatement (some e)) s =
        GenSt.emit (genExpr e s).1
          ⟨"return", .ostr (genExpr e s).2, .onone, none⟩ from rfl]
    exact StmtSpec_emitOp _ _ _ _ _ _
      (StmtSpec.of_exprSpec _ _ (genExpr_spec e s hwe)) (by decide)
  | .returnStatement none, s, _ => by
    rw [show genStmt (.returnStatement none) s =
        GenSt.emit s ⟨"return", .onone, .onone, none⟩ from rfl]
    exact StmtSpec_emitOp _ _ _ _ _ _ (StmtSpec_refl s) (by decide)
  | .printStatement es, s, hwf => by
    have hwe : wfExprList es = true := hwf
    rw [show genStmt (.printStatement es) s = genPrintExprs es s from rfl]
    exact StmtSpec.of_exprSpec _ _ (genPrintExprs_spec es s hwe)
  | .block sts, s, hwf => by
    have hws : wfStmtList sts = true := hwf
    rw [show genStmt (.block sts) s = genStmts sts s from rfl]
    exact genStmts_seg sts s hws
  | .arrayAssignment arr i v, s, hwf => by
    have hwf2 : (wfExpr i && wfExpr v) = true := hwf
    simp only [Bool.and_eq_true] at hwf2
    rw [show genStmt (.arrayAssignment arr i v) s =
        GenSt.emit (genExpr v (genExpr i s).1).1
          ⟨"array_set", .ostr (genExpr i s).2,
            .ostr (genExpr v (genExpr i s).1).2, some arr⟩ from rfl]
    exact StmtSpec_emitOp _ _ _ _ _ _
      (StmtSpec.of_exprSpec _ _
        (ExprSpec.trans _ _ _ (genExpr_spec i s hwf2.1)
          (genExpr_spec v _ hwf2.2))) (by decide)
  | .exprStmt e, s, hwf => by
    have hwe : wfExpr e = true := hwf
    rw [show genStmt (.exprStmt e) s = (genExpr e s).1 from rfl]
    exact StmtSpec.of_exprSpec _ _ (genExpr_spec e s hwe)

theorem genStmts_seg : ∀ (sts : List Stmt) (s : GenSt),
    wfStmtList sts = true → StmtSpec s (genStmts sts s)
  | [], s, _ => by
    rw [show genStmts [] s = s from rfl]
    exact StmtSpec_refl s
  | st :: rest, s, hwf => by
    have hw : (wfStmt st && wfStmtList rest) = true := hwf
    simp only [Bool.and_eq_true] at hw
    rw [show genStmts (st :: rest) s = genStmts rest (genStmt st s)
      from rfl]
    exact StmtSpec_trans _ _ _ (genStmt_seg st s hw.1)
      (genStmts_seg rest _ hw.2)

end


/-- C6: for the IR the generator produces from a parser-shaped AST (its
operator strings drawn from the parser's operator sets), every label name
that occurs as the target of a `goto`, `if_false` or `if_true`
instruction occurs exactly once in that list as the result of a `label`
instruction. -/
theorem C6_jump_targets_unique (prog : List Stmt) (name : String)
    (hwf : wfStmtList prog = true)
    (hjmp : 0 < jmpCount (genProgram prog).code name) :
    labCount (genProgram prog).code name = 1 := by
  obtain ⟨hle, Δ, h1, h2⟩ := genStmts_seg prog ⟨[], 0, 0⟩ hwf
  have hcode : (genProgram prog).code = Δ := by
    rw [show genProgram prog = genStmts prog ⟨[], 0, 0⟩ from rfl, h1]
    rfl
  rw [hcode] at hjmp ⊢
  exact h2.2.2 name hjmp

/-- C6 witness: a while loop whose generated IR jumps to `L0` (loop head)
and `L1` (exit); `L0` is a jump target and is defined exactly once. -/
theorem C6_jump_targets_unique_witness :
    wfStmtList [.whileStatement (.lit (.lbool true))
        [.assignment "x" (.lit (.lint 1))]] = true ∧
    0 < jmpCount (genProgram [.whileStatement (.lit (.lbool true))
        [.assignment "x" (.lit (.lint 1))]]).code "L0" ∧
    labCount (genProgram [.whileStatement (.lit (.lbool true))
        [.assignment "x" (.lit (.lint 1))]]).code "L0" = 1 :=
  ⟨by decide, by decide,
    C6_jump_targets_unique _ "L0" (by decide) (by decide)⟩

end MiniCompiler
